import Mathlib

/-!
Verification development for the fishballapp/acme TypeScript ACME client.

Byte sequences (`Uint8Array` values) are modelled as `List Nat`, every
element understood to lie below 256; places where the source routes data
through a fresh `Uint8Array` reduce elements modulo 256, exactly as the
typed-array copy does.  JavaScript numbers flow through 32-bit signed
bitwise operators in the binary helpers; where that wrap can matter the
model applies an explicit two-complement reduction.
-/

namespace Spec2Proof

/-- Wrap of an integer into the signed 32-bit range, modelling the
ECMAScript ToInt32 conversion applied by the bitwise operators. -/
def toInt32 (n : Int) : Int := (n + 2 ^ 31) % 2 ^ 32 - 2 ^ 31

/-- Embeds `uint8ArrayToNumber` (src/utils/Uint8ArrayHelpers.ts): the JS
loop runs `x <<= 8; x |= byte` over the bytes.  The shift wraps at 32 bits;
after the wrap the low eight bits are clear, and the byte is below 256, so
the bitwise or coincides with addition. -/
def uint8ArrayToNumber (bytes : List Nat) : Int :=
  bytes.foldl (fun (x : Int) (b : Nat) => toInt32 (x * 256) + (b : Int)) 0

/-- Loop of `unsignedIntegerToUint8Array`, with the starting number
itself as structural fuel (one division by 256 per step keeps the value
within the fuel, see `unsignedGo_congr`). -/
def unsignedIntegerToUint8ArrayGo : Nat → Nat → List Nat
  | 0, n => [n % 256]
  | fuel + 1, n =>
    if n < 256 then [n % 256]
    else unsignedIntegerToUint8ArrayGo fuel (n / 256) ++ [n % 256]

/-- Embeds `unsignedIntegerToUint8Array` (src/utils/Uint8ArrayHelpers.ts):
big-endian base-256 digits produced by a do-while loop, so 0 encodes as
`[0]`.  The JS loop uses `temp >>= 8`, a 32-bit shift; for the inputs the
encoders feed it (array lengths below 2 ^ 31) that agrees with division by
256, which is used here. -/
def unsignedIntegerToUint8Array (n : Nat) : List Nat :=
  unsignedIntegerToUint8ArrayGo n n

/-- Embeds `concatUint8Arrays` (src/utils/Uint8ArrayHelpers.ts): the parts
are copied into a fresh `Uint8Array`, whose element store reduces every
written value modulo 256. -/
def concatUint8Arrays (xss : List (List Nat)) : List Nat :=
  xss.flatten.map (fun b => b % 256)

/-- Two-argument `TypedArray.prototype.slice`: negative indices count from
the end of the array and both indices are clamped into range, so the call
never reads out of bounds and never fails. -/
def jsSlice (xs : List Nat) (s e : Int) : List Nat :=
  let n : Int := xs.length
  let s1 : Int := if s < 0 then max (n + s) 0 else min s n
  let e1 : Int := if e < 0 then max (n + e) 0 else min e n
  (xs.drop s1.toNat).take (e1 - s1).toNat

/-- One-argument `TypedArray.prototype.slice`, slicing to the end. -/
def jsSliceFrom (xs : List Nat) (s : Int) : List Nat := jsSlice xs s xs.length

/-- Result quadruple of `decodeTagLengthValue`: tag, declared length, value
slice and the full TLV slice consumed. -/
structure Tlv where
  tag : Nat
  len : Int
  value : List Nat
  tlvDer : List Nat
  deriving Repr, DecidableEq

/-- Embeds `decodeTagLengthValue` (src/Asn1/Asn1DecodeHelpers.ts).  A
missing tag byte or missing first length byte throws; otherwise the
declared length is read in short or long form and the value and TLV slices
are carved out with `slice`, which clamps rather than failing when the
declared length overruns the input. -/
def decodeTagLengthValue (asn1Der : List Nat) : Except String Tlv :=
  let restDer := jsSliceFrom asn1Der 2
  match asn1Der with
  | [] => .error "Malformed ASN.1. Tag does not exist!"
  | [_] => .error "Malformed ASN.1. Length does not exist!"
  | tag :: lengthOrLengthByteCount :: _ =>
    if lengthOrLengthByteCount &&& 128 = 0 then
      .ok { tag := tag
            len := (lengthOrLengthByteCount : Int)
            value := jsSlice restDer 0 (lengthOrLengthByteCount : Int)
            tlvDer := jsSlice asn1Der 0 (2 + (lengthOrLengthByteCount : Int)) }
    else
      let lengthByteCount : Nat := lengthOrLengthByteCount &&& 127
      let lengthParts := jsSlice restDer 0 (lengthByteCount : Int)
      let length := uint8ArrayToNumber lengthParts
      .ok { tag := tag
            len := length
            value := jsSlice restDer (lengthByteCount : Int) ((lengthByteCount : Int) + length)
            tlvDer := jsSlice asn1Der 0 (2 + (lengthByteCount : Int) + length) }

/-- Tag constants from src/Asn1/Asn1.ts used by the codec. -/
def ASN1_TAG_SEQUENCE : Nat := 0x30

/-- Loop of `decodeSequence`: repeatedly decode a TLV from the remaining
slice of the sequence value and advance by the decoded byte length.  The JS
while-loop fails to advance only when a decoded TLV slice is empty, in
which case it would spin forever; the fuel (one unit per loop entry, and at
least one byte of budget consumed per productive entry) runs out only on
such non-terminating runs, which the model reports as an error. -/
def decodeSequenceGo (sequenceValueDer : List Nat) (length : Int) :
    Nat → Int → List (List Nat) → Except String (List (List Nat))
  | 0, _, _ => .error "sequence decoding does not terminate"
  | fuel + 1, totalLength, values =>
    if totalLength < length then
      match decodeTagLengthValue (jsSliceFrom sequenceValueDer totalLength) with
      | .error e => .error e
      | .ok tlv =>
        decodeSequenceGo sequenceValueDer length fuel
          (totalLength + tlv.tlvDer.length) (values ++ [tlv.tlvDer])
    else
      .ok values

/-- Embeds `decodeSequence` (src/Asn1/Asn1DecodeHelpers.ts): decode the
outer TLV, require the SEQUENCE tag, then split the value into the child
TLV slices. -/
def decodeSequence (sequenceTLVDer : List Nat) : Except String (List (List Nat)) := do
  let tlv ← decodeTagLengthValue sequenceTLVDer
  if tlv.tag ≠ ASN1_TAG_SEQUENCE then
    .error "Expect tag to be 0x30."
  else
    decodeSequenceGo tlv.value tlv.len (tlv.len.toNat + 1) 0 []

/-- UTF-8 bytes of one character, as produced by `TextEncoder`. -/
def utf8EncodeChar (c : Char) : List Nat :=
  let n := c.toNat
  if n < 0x80 then [n]
  else if n < 0x800 then [0xC0 + n / 64, 0x80 + n % 64]
  else if n < 0x10000 then [0xE0 + n / 4096, 0x80 + n / 64 % 64, 0x80 + n % 64]
  else [0xF0 + n / 262144, 0x80 + n / 4096 % 64, 0x80 + n / 64 % 64, 0x80 + n % 64]

/-- Embeds `new TextEncoder().encode(str)`: the UTF-8 bytes of the string. -/
def textEncoderEncode (s : String) : List Nat :=
  (s.data.map utf8EncodeChar).flatten

namespace Asn1Encoder

/-- Embeds `Asn1Encoder.length` (src/Asn1/Asn1Encoder.ts): lengths below
128 are one length byte; otherwise the long form is the byte count with
its top bit set followed by the big-endian length bytes.  The source throws
when the expansion needs more than 127 bytes, which would require a length
of at least 256 ^ 127; no byte array can attain that, so the model omits
the branch. -/
def length (length : Nat) : List Nat :=
  if length < 128 then [length]
  else concatUint8Arrays [[128 ||| (unsignedIntegerToUint8Array length).length],
    unsignedIntegerToUint8Array length]

/-- Embeds `Asn1Encoder.custom`: tag byte, DER length octets, value. -/
def custom (tag : Nat) (value : List Nat) : List Nat :=
  concatUint8Arrays [[tag], Asn1Encoder.length value.length, value]

/-- Embeds `Asn1Encoder.uintBytes`: empty input throws; a payload whose
most significant bit is set gets a 0x00 byte prepended before tagging as
INTEGER (0x02). -/
def uintBytes (bytes : List Nat) : Except String (List Nat) :=
  match bytes[0]? with
  | none => .error "Try to encode integer but no value in Uint8Array"
  | some b0 =>
    if b0 &&& 128 ≠ 0 then .ok (custom 0x02 (concatUint8Arrays [[0x00], bytes]))
    else .ok (custom 0x02 bytes)

/-- Embeds `Asn1Encoder.sequence`: SEQUENCE (0x30) over the concatenation
of the already-encoded children. -/
def sequence (values : List (List Nat)) : List Nat :=
  custom 0x30 (concatUint8Arrays values)

/-- Embeds `Asn1Encoder.octetString`: OCTET STRING (0x04) over the value. -/
def octetString (value : List Nat) : List Nat :=
  custom 0x04 value

/-- Embeds `Asn1Encoder.utf8String`: UTF8String (0x0C) over the UTF-8
bytes of the string. -/
def utf8String (str : String) : List Nat :=
  custom 0x0C (textEncoderEncode str)

end Asn1Encoder

/-- Reference big-endian value of a byte list over a seed accumulator,
with exact natural-number arithmetic. -/
def natFromBytes (x : Nat) (bs : List Nat) : Nat :=
  bs.foldl (fun a b => a * 256 + b) x

/-- Well-formed TLV slices: outputs of the generic encoder for a byte
payload of length below 2 ^ 31. -/
def WfTlv (bs : List Nat) : Prop :=
  ∃ t v, t < 256 ∧ (∀ b ∈ v, b < 256) ∧ v.length < 2 ^ 31 ∧ bs = Asn1Encoder.custom t v

namespace Encoding

/-- Byte code of the base64 alphabet entry at index `n` (RFC 4648 table:
A-Z, a-z, 0-9, plus, slash); indices at or above 64 never occur for byte
input. -/
def b64Code (n : Nat) : Nat :=
  if n < 26 then 65 + n
  else if n < 52 then 97 + (n - 26)
  else if n < 62 then 48 + (n - 52)
  else if n = 62 then 43
  else 47

/-- Base64 alphabet character at index `n`. -/
def b64Char (n : Nat) : Char := Char.ofNat (b64Code n)

/-- Embeds `btoa` over a binary string of byte values: three bytes become
four sextet characters; a trailing group of one or two bytes is padded
with one or two `=` characters.  The bit operations are written with
division and remainder. -/
def btoa : List Nat → List Char
  | [] => []
  | [b1] => [b64Char (b1 / 4), b64Char (b1 % 4 * 16), '=', '=']
  | [b1, b2] => [b64Char (b1 / 4), b64Char (b1 % 4 * 16 + b2 / 16), b64Char (b2 % 16 * 4), '=']
  | b1 :: b2 :: b3 :: rest =>
    [b64Char (b1 / 4), b64Char (b1 % 4 * 16 + b2 / 16), b64Char (b2 % 16 * 4 + b3 / 64),
      b64Char (b3 % 64)] ++ btoa rest

/-- Embeds `.replace(/=?=$/, "")`: the regular expression removes the last
one or two `=` characters when the string ends with them. -/
def replacePadEnd (cs : List Char) : List Char :=
  match cs.reverse with
  | '=' :: '=' :: rest => rest.reverse
  | '=' :: rest => rest.reverse
  | _ => cs

/-- Embeds `encodeBase64Url` (src/utils/encoding.ts, btoa-based version):
base64 of the bytes, padding removed, then plus mapped to minus and slash
to underscore.  A string argument is its sequence of UTF-16 char codes and
btoa rejects codes above 255, so every successful call goes through byte
values, which is what the model takes. -/
def encodeBase64Url (bytes : List Nat) : String :=
  String.mk ((replacePadEnd (btoa bytes)).map
    (fun c => if c = '+' then '-' else if c = '/' then '_' else c))

end Encoding

namespace EncodingV2

/-- Byte code of the base64url alphabet entry at index `n` (RFC 4648
url-safe table: A-Z, a-z, 0-9, minus, underscore). -/
def b64UrlCode (n : Nat) : Nat :=
  if n < 26 then 65 + n
  else if n < 52 then 97 + (n - 26)
  else if n < 62 then 48 + (n - 52)
  else if n = 62 then 45
  else 95

/-- Base64url alphabet character at index `n`. -/
def b64UrlChar (n : Nat) : Char := Char.ofNat (b64UrlCode n)

/-- Embeds `Uint8Array.prototype.toBase64` with the base64url alphabet and
`omitPadding: true`, as used by the second `encodeBase64Url` version in
src/utils/encoding.ts: the same sextet grouping as base64, with no padding
characters. -/
def toBase64UrlChars : List Nat → List Char
  | [] => []
  | [b1] => [b64UrlChar (b1 / 4), b64UrlChar (b1 % 4 * 16)]
  | [b1, b2] =>
    [b64UrlChar (b1 / 4), b64UrlChar (b1 % 4 * 16 + b2 / 16), b64UrlChar (b2 % 16 * 4)]
  | b1 :: b2 :: b3 :: rest =>
    [b64UrlChar (b1 / 4), b64UrlChar (b1 % 4 * 16 + b2 / 16),
      b64UrlChar (b2 % 16 * 4 + b3 / 64), b64UrlChar (b3 % 64)] ++ toBase64UrlChars rest

/-- Embeds the `toBase64`-based `encodeBase64Url`. -/
def encodeBase64Url (bytes : List Nat) : String :=
  String.mk (toBase64UrlChars bytes)

end EncodingV2

namespace AcmeClient

/-- Embeds `AcmeClient.#fetchNonce` (src/ACME_DIRECTORY_URLS.ts): a HEAD
request to the newNonce endpoint must answer with a Replay-Nonce header;
its absence is fatal.  The argument is that header of the HEAD response. -/
def fetchNonce (headReplayNonceHeader : Option String) : Except String String :=
  match headReplayNonceHeader with
  | some nonce => .ok nonce
  | none => .error "Failed to get new nonce"

/-- Embeds the nonce-queue effect of `AcmeClient.jwsFetch`
(src/ACME_DIRECTORY_URLS.ts): shift a nonce off the front of the queue, or
fetch a fresh one when the queue is empty; after the response arrives,
push exactly one new nonce onto the back of the queue, taken from the
Replay-Nonce response header or freshly fetched when that header is
absent.  `newNonceHead1` and `newNonceHead2` are the headers of the two
potential HEAD requests; `responseReplayNonce` is the Replay-Nonce header
of the signed-request response.  The result is the nonce consumed by this
request and the queue afterwards. -/
def jwsFetch (nonceQueue : List String)
    (newNonceHead1 newNonceHead2 responseReplayNonce : Option String) :
    Except String (String × List String) := do
  let nonce ← match nonceQueue.head? with
    | some n => Except.ok n
    | none => fetchNonce newNonceHead1
  let harvested ← match responseReplayNonce with
    | some n => Except.ok n
    | none => fetchNonce newNonceHead2
  Except.ok (nonce, nonceQueue.tail ++ [harvested])

end AcmeClient

/-- Identifier object of an ACME authorization response. -/
structure RawAcmeIdentifier where
  type : String
  value : String
  deriving Repr, DecidableEq

/-- Challenge object inside an ACME authorization response. -/
structure RawAcmeChallengeObject where
  token : String
  type : String
  url : String
  deriving Repr, DecidableEq

/-- Authorization object as returned by the ACME server
(`AcmeAuthorizationObjectSnapshot` in src/AcmeAuthorization.ts). -/
structure AcmeAuthorizationResponse where
  identifier : RawAcmeIdentifier
  wildcard : Option Bool
  challenges : List RawAcmeChallengeObject
  deriving Repr, DecidableEq

/-- Value content of an `AcmeChallenge` as built by
`AcmeAuthorization.init` (the back reference to the authorization is
dropped to keep the model acyclic). -/
structure AcmeChallengeModel where
  token : String
  type : String
  url : String
  deriving Repr, DecidableEq

/-- Value content of an `AcmeAuthorization` after `init`. -/
structure AcmeAuthorizationModel where
  url : String
  domain : String
  challenges : List AcmeChallengeModel
  deriving Repr, DecidableEq

namespace AcmeAuthorization

/-- Embeds `AcmeAuthorization.init` (src/AcmeAuthorization.ts): build the
challenge objects, reject identifier types other than dns, then expose the
identifier value as the domain.  The wildcard flag of the response is not
consulted. -/
def init (url : String) (resp : AcmeAuthorizationResponse) :
    Except String AcmeAuthorizationModel :=
  let challenges := resp.challenges.map
    (fun c => AcmeChallengeModel.mk c.token c.type c.url)
  if resp.identifier.type ≠ "dns" then .error "Unsupported identifier type"
  else .ok { url := url, domain := resp.identifier.value, challenges := challenges }

end AcmeAuthorization

/-- Lookup in a JavaScript `Map` built from an entry list: a later entry
with the same key overwrites an earlier one. -/
def jsMapGet {α : Type} (entries : List (String × α)) (key : String) : Option α :=
  (entries.reverse.find? (fun e => e.1 == key)).map (fun e => e.2)

namespace AcmeOrder

/-- Embeds the authorization construction of `AcmeOrder.init`
(src/AcmeOrder.ts): initialize one authorization per authorization URL,
build a Map from each authorization domain to the authorization, then
resolve every requested domain through that Map, failing on the first
domain with no matching authorization. -/
def init (domains : List String)
    (authorizationResponses : List (String × AcmeAuthorizationResponse)) :
    Except String (List AcmeAuthorizationModel) := do
  let authorizations ← authorizationResponses.mapM
    (fun p => AcmeAuthorization.init p.1 p.2)
  let domainToAuthorizationMap := authorizations.map (fun a => (a.domain, a))
  domains.mapM (fun domain =>
    match jsMapGet domainToAuthorizationMap domain with
    | some a => Except.ok a
    | none => Except.error ("cannot find authorization for " ++ domain))

end AcmeOrder

/-- Requested domains of the wildcard scenario from the claim and the e2e
wildcard test: the wildcard form and the base form of one domain. -/
def wildcardOrderDomains : List String := ["*.example.com", "example.com"]

/-- Authorization responses a conforming ACME server returns for the
wildcard scenario: both identifiers carry the base domain, RFC 8555
forbids the star prefix in identifier values, and the wildcard
authorization is flagged with `wildcard: true`. -/
def wildcardOrderAuthorizationResponses : List (String × AcmeAuthorizationResponse) :=
  [("https://ca.example/authz/1",
    { identifier := { type := "dns", value := "example.com" },
      wildcard := some true,
      challenges := [{ token := "tokenA", type := "dns-01", url := "https://ca.example/chal/1" }] }),
   ("https://ca.example/authz/2",
    { identifier := { type := "dns", value := "example.com" },
      wildcard := none,
      challenges := [{ token := "tokenB", type := "dns-01", url := "https://ca.example/chal/2" }] })]

/- Error type URNs distinguished by the client (src/errors.ts,
`ACME_ERROR_TYPES`). -/
namespace ACME_ERROR_TYPES

def BAD_NONCE : String := "urn:ietf:params:acme:error:badNonce"

def ACCOUNT_DOES_NOT_EXIST : String := "urn:ietf:params:acme:error:accountDoesNotExist"

end ACME_ERROR_TYPES

/-- Required JWK fields of the ES256 account public key, in the canonical
thumbprint order crv, kty, x, y. -/
structure Jwk where
  crv : String
  kty : String
  x : String
  y : String
  deriving Repr, DecidableEq

/-- Lowercase hexadecimal digit, as produced by JSON escape sequences. -/
def hexDigit (n : Nat) : Char :=
  if n < 10 then Char.ofNat (48 + n) else Char.ofNat (87 + n)

/-- JSON string escaping of one character, as performed by
`JSON.stringify` on string values. -/
def jsonEscapeChar (c : Char) : List Char :=
  if c = '"' then ['\\', '"']
  else if c = '\\' then ['\\', '\\']
  else if c = '\x08' then ['\\', 'b']
  else if c = '\x09' then ['\\', 't']
  else if c = '\x0a' then ['\\', 'n']
  else if c = '\x0c' then ['\\', 'f']
  else if c = '\x0d' then ['\\', 'r']
  else if c.toNat < 32 then
    ['\\', 'u', '0', '0', hexDigit (c.toNat / 16), hexDigit (c.toNat % 16)]
  else [c]

/-- JSON quoted string of `s`. -/
def jsonQuote (s : String) : String :=
  "\"" ++ String.mk (s.data.map jsonEscapeChar).flatten ++ "\""

/-- Embeds the canonical JWK serialization of `getJWKThumbprint`
(src/unnamed/part_017): `JSON.stringify` of the object with exactly the
fields crv, kty, x, y in that order. -/
def jwkCanonicalJson (jwk : Jwk) : String :=
  "\x7b\"crv\":" ++ jsonQuote jwk.crv ++ ",\"kty\":" ++ jsonQuote jwk.kty ++
    ",\"x\":" ++ jsonQuote jwk.x ++ ",\"y\":" ++ jsonQuote jwk.y ++ "\x7d"

namespace AcmeChallenge

/-- Embeds `getJWKThumbprint` (src/unnamed/part_017): SHA-256 of the
canonical JWK JSON, base64url-encoded.  The hash itself is external
cryptography and enters the model as the function argument `sha256`. -/
def getJWKThumbprint (sha256 : List Nat → List Nat) (jwk : Jwk) : String :=
  Encoding.encodeBase64Url (sha256 (textEncoderEncode (jwkCanonicalJson jwk)))

/-- Embeds `AcmeChallenge.digestToken` (src/unnamed/part_017): base64url
of the SHA-256 digest of `token + "." + thumbprint`, where the thumbprint
is computed from the account public key JWK. -/
def digestToken (sha256 : List Nat → List Nat) (accountPublicKeyJwk : Jwk)
    (token : String) : String :=
  Encoding.encodeBase64Url (sha256 (textEncoderEncode
    (token ++ "." ++ getJWKThumbprint sha256 accountPublicKeyJwk)))

end AcmeChallenge

/-- DNS TXT record contract handed to the caller. -/
structure DnsTxtRecord where
  name : String
  type : String
  content : String
  deriving Repr, DecidableEq

namespace Dns01Challenge

/-- Embeds `Dns01Challenge.getDnsRecordAnswer` (src/unnamed/part_017):
the record name is `_acme-challenge.` followed by the domain of the
challenge authorization and a trailing dot; the content is the digested
token. -/
def getDnsRecordAnswer (sha256 : List Nat → List Nat) (authorizationDomain : String)
    (accountPublicKeyJwk : Jwk) (token : String) : DnsTxtRecord :=
  { name := "_acme-challenge." ++ authorizationDomain ++ "."
    type := "TXT"
    content := AcmeChallenge.digestToken sha256 accountPublicKeyJwk token }

end Dns01Challenge

/-- Poll target of `pollDnsTxtRecord`: a single TXT content value or a
list of values that must all be present. -/
inductive PollUntil where
  | single (value : String)
  | many (values : List String)
  deriving Repr, DecidableEq

/-- Normalization performed at the top of `pollDnsTxtRecord`: a single
string becomes a one-element list. -/
def PollUntil.toList : PollUntil → List String
  | .single v => [v]
  | .many vs => vs

/-- Option object of `pollDnsTxtRecord` (src/unnamed/part_012), reduced to
the fields the polling loop consumes; absent interval and timeout fall
back to the defaults 5000 and 30000. -/
structure PollDnsTxtRecordOptions where
  pollUntil : PollUntil
  interval : Option Nat
  timeout : Option Nat

/-- Joining of chunked TXT answers: every record arrives as a list of
chunks of at most 255 bytes and is reassembled by `chunks.join("")`. -/
def joinChunks (records : List (List String)) : List String :=
  records.map (fun chunks => String.join chunks)

/-- Success condition of one poll attempt: every required value appears in
the joined TXT answer set of every queried server. -/
def pollSuccess (pollUntil : List String) (recordss : List (List String)) : Bool :=
  pollUntil.all (fun v => recordss.all (fun records => records.contains v))

/-- Polling loop of `pollDnsTxtRecord` (src/unnamed/part_012) under an
idealized clock: the k-th attempt happens at time `k * interval`, DNS
queries take no time, and the loop runs while the attempt time is at most
`timeout`.  `resolveTxt k` is the per-server chunked TXT answer of attempt
`k` over the queried name servers; a failed attempt records the joined
answers as the latest diagnostic snapshot.  A positive interval is
required for termination. -/
def pollGo (resolveTxt : Nat → List (List (List String))) (pollUntil : List String)
    (interval timeout : Nat) (hI : 0 < interval) (k : Nat)
    (latest : Option (List (List String))) : Except (Option (List (List String))) Unit :=
  if k * interval ≤ timeout then
    if pollSuccess pollUntil ((resolveTxt k).map joinChunks) then .ok ()
    else pollGo resolveTxt pollUntil interval timeout hI (k + 1)
      (some ((resolveTxt k).map joinChunks))
  else .error latest
  termination_by timeout + 1 - k * interval
  decreasing_by
    have hmul : (k + 1) * interval = k * interval + interval := by ring
    omega

/-- Embeds `pollDnsTxtRecord` (src/unnamed/part_012): apply the defaults
(interval 5000, timeout 30000), normalize `pollUntil`, then run the
polling loop from attempt 0.  Success is `.ok ()`; the timeout raises an
error carrying the most recent per-server answer sets.  When the interval
is zero the source would poll without ever advancing its deadline check
past a finite number of attempts only if one succeeds; the theorems below
only consider positive intervals, and the model maps that corner to the
timeout error with no snapshot. -/
def pollDnsTxtRecord (resolveTxt : Nat → List (List (List String)))
    (_domain : String) (options : PollDnsTxtRecordOptions) :
    Except (Option (List (List String))) Unit :=
  let interval := options.interval.getD 5000
  let timeout := options.timeout.getD 30000
  let pollUntil := options.pollUntil.toList
  if hI : 0 < interval then pollGo resolveTxt pollUntil interval timeout hI 0 none
  else .error none

/-- Responses of the ACME server as seen by the retry logic: the HTTP
success flag and the problem-document type URN of the body. -/
structure AcmeResponse where
  ok : Bool
  errorType : String
  deriving Repr, DecidableEq

/-- Stale-nonce test: an unsuccessful response whose problem type is the
badNonce URN. -/
def AcmeResponse.isBadNonce (r : AcmeResponse) : Bool :=
  !r.ok && r.errorType == ACME_ERROR_TYPES.BAD_NONCE

/-- Outcome of a signed request under the retry wrapper: the response that
ended the loop together with the number of retries it took, or the
distinguished bad-nonce failure. -/
inductive SignedRequestOutcome where
  | response (retries : Nat) (r : AcmeResponse)
  | badNonceFailure
  deriving Repr, DecidableEq

/-- Retry ceiling documented on `BadNonceError` (src/errors.ts). -/
def MAX_BAD_NONCE_RETRIES : Nat := 5

/-- Modelled from the spec: the bad-nonce retry wrapper around the signed
request is not present under src - src holds only the `BadNonceError`
declaration, whose doc comment documents the automatic retry - so the loop
is modelled from the spec sentences: each attempt signs the same payload
with a fresh nonce and sends it; a response that is unsuccessful with the
badNonce problem type triggers a retry up to the ceiling of 5 retries, and
a bad nonce on all six attempts raises the distinguished bad-nonce error.
`server k` is the response to attempt `k` and `nonces k` the fresh nonce
attempt `k` signs with.  The result lists the requests actually sent, as
pairs of nonce and payload, next to the outcome. -/
def signedRequestGo (server : Nat → AcmeResponse) (nonces : Nat → String)
    (payload : String) (attempt : Nat) : List (String × String) × SignedRequestOutcome :=
  let request := (nonces attempt, payload)
  let r := server attempt
  if r.isBadNonce then
    if _h : attempt < MAX_BAD_NONCE_RETRIES then
      let rec0 := signedRequestGo server nonces payload (attempt + 1)
      (request :: rec0.1, rec0.2)
    else ([request], .badNonceFailure)
  else ([request], .response attempt r)
  termination_by MAX_BAD_NONCE_RETRIES + 1 - attempt
  decreasing_by
    unfold MAX_BAD_NONCE_RETRIES at *
    omega

/-- Modelled from the spec: a signed request with automatic bad-nonce
retry starts at attempt 0. -/
def signedRequest (server : Nat → AcmeResponse) (nonces : Nat → String)
    (payload : String) : List (String × String) × SignedRequestOutcome :=
  signedRequestGo server nonces payload 0

/-- Payload of a newAccount request; absent fields are omitted from the
serialized JSON. -/
structure NewAccountPayload where
  termsOfServiceAgreed : Option Bool
  contact : Option (List String)
  onlyReturnExisting : Option Bool
  deriving Repr, DecidableEq

/-- Shape of a signed newAccount request: the target URL and whether the
protected header carries the public JWK (rather than a kid), plus the
payload. -/
structure NewAccountRequest where
  url : String
  usesJwkHeader : Bool
  payload : Option NewAccountPayload
  deriving Repr, DecidableEq

/-- Embeds the request construction of `AcmeClient.createAccount`
(src/ACME_DIRECTORY_URLS.ts): a jwk-signed POST to the newAccount URL with
termsOfServiceAgreed and a mailto contact built from the email. -/
def createAccountRequest (newAccountUrl : String) (email : String) : NewAccountRequest :=
  { url := newAccountUrl
    usesJwkHeader := true
    payload := some
      { termsOfServiceAgreed := some true
        contact := some ["mailto:" ++ email]
        onlyReturnExisting := none } }

/-- Embeds the request construction of `AcmeClient.login`
(src/ACME_DIRECTORY_URLS.ts, the claim's cited lines): a jwk-signed POST
to the newAccount URL that carries no payload at all - in particular no
onlyReturnExisting flag. -/
def loginRequest (newAccountUrl : String) : NewAccountRequest :=
  { url := newAccountUrl
    usesJwkHeader := true
    payload := none }

/-- The login request as the spec describes it, for comparison with
`loginRequest`: the same jwk-signed newAccount request shape as account
creation but with a payload of onlyReturnExisting true and no contact. -/
def specLoginRequest (newAccountUrl : String) : NewAccountRequest :=
  { url := newAccountUrl
    usesJwkHeader := true
    payload := some
      { termsOfServiceAgreed := none
        contact := none
        onlyReturnExisting := some true } }

/-- Failures of login: the parsed problem JSON rethrown raw (what the
source does on any unsuccessful response), the distinguished
account-does-not-exist error (what the spec describes), and the missing
Location header. -/
inductive LoginError where
  | accountDoesNotExist
  | thrownJson (errorType : String)
  | missingLocation
  deriving Repr, DecidableEq

/-- Response to a newAccount request as seen by login: success flag,
problem type of the error body, and the Location header. -/
structure JsonResponse where
  ok : Bool
  errorType : String
  location : Option String
  deriving Repr, DecidableEq

/-- Embeds the response handling of `AcmeClient.login`
(src/ACME_DIRECTORY_URLS.ts): an unsuccessful response rethrows the parsed
problem JSON as-is - no problem type is distinguished; on success the
account URL is read from the Location header, whose absence is fatal. -/
def loginHandleResponse (resp : JsonResponse) : Except LoginError String :=
  if resp.ok then
    match resp.location with
    | some accountUrl => .ok accountUrl
    | none => .error .missingLocation
  else .error (.thrownJson resp.errorType)

/-- The response handling the spec describes, for comparison with
`loginHandleResponse`: an unsuccessful response whose problem type is the
accountDoesNotExist URN is surfaced as the distinguished error; other
failures propagate raw. -/
def specLoginHandleResponse (resp : JsonResponse) : Except LoginError String :=
  if resp.ok then
    match resp.location with
    | some accountUrl => .ok accountUrl
    | none => .error .missingLocation
  else if resp.errorType == ACME_ERROR_TYPES.ACCOUNT_DOES_NOT_EXIST then
    .error .accountDoesNotExist
  else .error (.thrownJson resp.errorType)

namespace GenerateCSR

/- Object identifiers used by the CSR builder (src/utils/generateCSR.ts,
`OIDS`; the EXTENSION_REQUET spelling is the source field name). -/

def OID_COMMON_NAME : String := "2.5.4.3"

def OID_SUBJECT_ALT_NAME : String := "2.5.29.17"

def OID_ID_EC_PUBLIC_KEY : String := "1.2.840.10045.2.1"

def OID_PRIME256V1 : String := "1.2.840.10045.3.1.7"

def OID_ECDSA_WITH_SHA256 : String := "1.2.840.10045.4.3.2"

def OID_EXTENSION_REQUET : String := "1.2.840.113549.1.9.14"

/-- Loop of `whileDigits` with the starting number as structural fuel. -/
def whileDigitsGo : Nat → Nat → List Nat
  | 0, _ => []
  | fuel + 1, n =>
    if n = 0 then [] else whileDigitsGo fuel (n / 256) ++ [n % 256]

/-- Big-endian base-256 digits via the while loop of `encodeLength`
(src/utils/generateCSR.ts): unlike the do-while helper of the shared
codec, zero yields no digits; the loop is only reached for lengths of at
least 128. -/
def whileDigits (n : Nat) : List Nat := whileDigitsGo n n

/-- Copy of a plain number array into a `Uint8Array`, reducing every
element modulo 256, as `Uint8Array.from` does. -/
def uint8ArrayFrom (l : List Nat) : List Nat := l.map (fun b => b % 256)

/-- Embeds the local `encodeLength` of src/utils/generateCSR.ts: one byte
below 128, otherwise the big-endian digits prefixed by the digit count
with its top bit set. -/
def encodeLength (length : Nat) : List Nat :=
  if length < 128 then uint8ArrayFrom [length]
  else uint8ArrayFrom ((128 ||| (whileDigits length).length) :: whileDigits length)

/-- Loop of `arcDigits` with the starting number as structural fuel. -/
def arcDigitsGo : Nat → Nat → List Nat
  | 0, n => [n % 128]
  | fuel + 1, n =>
    if n < 128 then [n % 128]
    else arcDigitsGo fuel (n / 128) ++ [n % 128]

/-- Base-128 digits of one OID arc (do-while, so at least one digit). -/
def arcDigits (n : Nat) : List Nat := arcDigitsGo n n

/-- Continuation bits of an OID arc: every digit except the last gets its
top bit set. -/
def withContinuationBits : List Nat → List Nat
  | [] => []
  | [d] => [d]
  | d :: rest => (d ||| 128) :: withContinuationBits rest

/-- One OID arc in base-128 with continuation bits. -/
def encodeArc (n : Nat) : List Nat := withContinuationBits (arcDigits n)

/-- Splitting at dots, modelling `oid.split(".")` on the character list
of the string. -/
def splitOnDotAux : List Char → List Char → List String
  | [], acc => [String.mk acc.reverse]
  | c :: rest, acc =>
    if c = '.' then String.mk acc.reverse :: splitOnDotAux rest []
    else splitOnDotAux rest (c :: acc)

/-- The dot-separated pieces of a string. -/
def jsSplitDot (s : String) : List String := splitOnDotAux s.data []

/-- Decimal parse of an arc, modelling `Number` on the dotted-decimal
constants the call sites pass: digits only, at least one. -/
def parseDecimalAux : List Char → Nat → Option Nat
  | [], acc => some acc
  | c :: rest, acc =>
    if 48 ≤ c.toNat ∧ c.toNat ≤ 57 then parseDecimalAux rest (acc * 10 + (c.toNat - 48))
    else none

/-- Decimal parse of a nonempty digit string. -/
def parseDecimal (s : String) : Option Nat :=
  match s.data with
  | [] => none
  | cs => parseDecimalAux cs 0

/-- Embeds the local `encodeOID` of src/utils/generateCSR.ts: the first
two arcs fold into one byte, later arcs use base-128 with continuation
bits; fewer than two arcs is an error.  The source parses the arcs with
`Number`; every call site passes a dotted-decimal constant, which is what
`parseDecimal` accepts, and an unparsable arc (never reached) falls back
to 0. -/
def encodeOID (oid : String) : Except String (List Nat) :=
  match (jsSplitDot oid).map parseDecimal with
  | some oidPart1 :: some oidPart2 :: rest =>
    let firstByte := oidPart1 * 40 + oidPart2
    let restBytes := (rest.map (fun o => encodeArc (o.getD 0))).flatten
    let valueBytes := [firstByte] ++ restBytes
    .ok (concatUint8Arrays [[0x06], encodeLength valueBytes.length, valueBytes])
  | _ => .error "oid does not contain part 1 or 2"

/-- Embeds the local `encodeUTF8String` of src/utils/generateCSR.ts. -/
def encodeUTF8String (str : String) : List Nat :=
  let strBytes := textEncoderEncode str
  concatUint8Arrays [[0x0C], encodeLength strBytes.length, strBytes]

/-- Embeds the local `encodeSequence` of src/utils/generateCSR.ts. -/
def encodeSequence (values : List (List Nat)) : List Nat :=
  let value := concatUint8Arrays values
  concatUint8Arrays [[0x30], encodeLength value.length, value]

/-- Embeds the local `encodeOctetString` of src/utils/generateCSR.ts. -/
def encodeOctetString (value : List Nat) : List Nat :=
  concatUint8Arrays [[0x04], encodeLength value.length, value]

/-- Embeds the local `encodeSet` of src/utils/generateCSR.ts. -/
def encodeSet (value : List Nat) : List Nat :=
  concatUint8Arrays [[0x31], encodeLength value.length, value]

/-- Embeds the local `encodeBitString` of src/utils/generateCSR.ts: an
unused-bits octet of zero precedes the payload. -/
def encodeBitString (bitString : List Nat) : List Nat :=
  let data := [0] ++ bitString
  concatUint8Arrays [[0x03], encodeLength data.length, data]

/-- Embeds `encodeSanDns` (local to `encodeSubjectAlternativeName` in
src/utils/generateCSR.ts): a context-2 tagged DNS name entry. -/
def encodeSanDns (str : String) : List Nat :=
  let strBytes := textEncoderEncode str
  concatUint8Arrays [[0x82], encodeLength strBytes.length, strBytes]

/-- Embeds `encodeSubjectAlternativeName` (src/utils/generateCSR.ts): a
SEQUENCE of the subjectAltName OID and an OCTET STRING wrapping a SEQUENCE
of one context-2 tagged entry per requested domain, in request order. -/
def encodeSubjectAlternativeName (domains : List String) : Except String (List Nat) := do
  let sanOid ← encodeOID OID_SUBJECT_ALT_NAME
  .ok (encodeSequence [concatUint8Arrays [sanOid,
    encodeOctetString (concatUint8Arrays [encodeSequence (domains.map encodeSanDns)])]])

/-- Embeds `generateCertificationRequestInfoSequence`
(src/utils/generateCSR.ts): version INTEGER 0, subject with one common
name set from the first domain, SubjectPublicKeyInfo over the raw EC
point, and a context-0 attributes block holding the extensionRequest with
the SAN extension.  An empty domain list is an error.  The raw public key
bytes stand in for `crypto.subtle.exportKey("raw", publicKey)`. -/
def generateCertificationRequestInfoSequence (domains : List String)
    (publicKeyRaw : List Nat) : Except String (List Nat) := do
  match domains with
  | [] => .error "no domain given to generate csr"
  | mainDomain :: _ =>
    let version : List Nat := [0x02, 0x01, 0x00]
    let cnOid ← encodeOID OID_COMMON_NAME
    let attributeTypeAndValue := encodeSequence [cnOid, encodeUTF8String mainDomain]
    let relativeDistinguishNameSet := encodeSet attributeTypeAndValue
    let subject := encodeSequence [relativeDistinguishNameSet]
    let ecOid ← encodeOID OID_ID_EC_PUBLIC_KEY
    let primeOid ← encodeOID OID_PRIME256V1
    let subjectPublicKeyInfo := encodeSequence
      [encodeSequence [ecOid, primeOid], encodeBitString publicKeyRaw]
    let extOid ← encodeOID OID_EXTENSION_REQUET
    let san ← encodeSubjectAlternativeName domains
    let extensionRequest := encodeSequence [extOid, encodeSet (encodeSequence [san])]
    let attributes := concatUint8Arrays
      [[0xA0], encodeLength extensionRequest.length, extensionRequest]
    .ok (encodeSequence [version, subject, subjectPublicKeyInfo, attributes])

/- Concrete TLV byte lists of the object identifiers, and the named
components of the CertificationRequestInfo, used to state what the
produced DER decodes to. -/

def cnOidTlv : List Nat := [6, 3, 85, 4, 3]

def sanOidTlv : List Nat := [6, 3, 85, 29, 17]

def ecPublicKeyOidTlv : List Nat := [6, 7, 42, 134, 72, 206, 61, 2, 1]

def prime256v1OidTlv : List Nat := [6, 8, 42, 134, 72, 206, 61, 3, 1, 7]

def extensionRequestOidTlv : List Nat := [6, 9, 42, 134, 72, 134, 247, 13, 1, 9, 14]

/-- Version component: INTEGER 0. -/
def versionTlv : List Nat := [0x02, 0x01, 0x00]

/-- Subject component: SEQUENCE of one SET of one SEQUENCE of the common
name OID and the first domain as UTF8String. -/
def subjectSeq (mainDomain : String) : List Nat :=
  encodeSequence [encodeSet (encodeSequence [cnOidTlv, encodeUTF8String mainDomain])]

/-- SubjectPublicKeyInfo component. -/
def spkiSeq (publicKeyRaw : List Nat) : List Nat :=
  encodeSequence [encodeSequence [ecPublicKeyOidTlv, prime256v1OidTlv],
    encodeBitString publicKeyRaw]

/-- SAN extension as produced by `encodeSubjectAlternativeName`. -/
def sanExtension (domains : List String) : List Nat :=
  encodeSequence [concatUint8Arrays [sanOidTlv,
    encodeOctetString (concatUint8Arrays [encodeSequence (domains.map encodeSanDns)])]]

/-- The extensionRequest attribute content. -/
def extensionRequestBlock (domains : List String) : List Nat :=
  encodeSequence [extensionRequestOidTlv, encodeSet (encodeSequence [sanExtension domains])]

/-- The context-0 attributes block. -/
def attributesBlock (domains : List String) : List Nat :=
  concatUint8Arrays [[0xA0], encodeLength (extensionRequestBlock domains).length,
    extensionRequestBlock domains]

end GenerateCSR

/-- Decode-level correctness of the CertificationRequestInfo produced for
`domains` and `publicKeyRaw`, as claimed: the info is a SEQUENCE of
version INTEGER 0, subject, SubjectPublicKeyInfo and attributes; the
subject drills down to one common-name pair whose UTF8String value is the
UTF-8 bytes of the first domain; the attributes block is context-0 tagged
and drills down to the SAN extension, whose inner SEQUENCE holds exactly
one context-2 tagged entry per requested domain, in order, each carrying
the UTF-8 bytes of the requested name, wildcard prefix included as
requested. -/
def CsrDecodesCorrectly (mainDomain : String) (ds : List String)
    (publicKeyRaw : List Nat) : Prop :=
  let domains := mainDomain :: ds
  (GenerateCSR.generateCertificationRequestInfoSequence domains publicKeyRaw
      = .ok (GenerateCSR.encodeSequence [GenerateCSR.versionTlv,
          GenerateCSR.subjectSeq mainDomain, GenerateCSR.spkiSeq publicKeyRaw,
          GenerateCSR.attributesBlock domains])) ∧
  (decodeSequence (GenerateCSR.encodeSequence [GenerateCSR.versionTlv,
      GenerateCSR.subjectSeq mainDomain, GenerateCSR.spkiSeq publicKeyRaw,
      GenerateCSR.attributesBlock domains])
    = .ok [GenerateCSR.versionTlv, GenerateCSR.subjectSeq mainDomain,
        GenerateCSR.spkiSeq publicKeyRaw, GenerateCSR.attributesBlock domains]) ∧
  (decodeTagLengthValue GenerateCSR.versionTlv
    = .ok ⟨0x02, 1, [0x00], GenerateCSR.versionTlv⟩) ∧
  (decodeSequence (GenerateCSR.subjectSeq mainDomain)
    = .ok [GenerateCSR.encodeSet (GenerateCSR.encodeSequence
        [GenerateCSR.cnOidTlv, GenerateCSR.encodeUTF8String mainDomain])]) ∧
  ((decodeTagLengthValue (GenerateCSR.encodeSet (GenerateCSR.encodeSequence
        [GenerateCSR.cnOidTlv, GenerateCSR.encodeUTF8String mainDomain]))).map Tlv.tag
    = .ok 0x31) ∧
  ((decodeTagLengthValue (GenerateCSR.encodeSet (GenerateCSR.encodeSequence
        [GenerateCSR.cnOidTlv, GenerateCSR.encodeUTF8String mainDomain]))).map Tlv.value
    = .ok (GenerateCSR.encodeSequence
        [GenerateCSR.cnOidTlv, GenerateCSR.encodeUTF8String mainDomain])) ∧
  (decodeSequence (GenerateCSR.encodeSequence
      [GenerateCSR.cnOidTlv, GenerateCSR.encodeUTF8String mainDomain])
    = .ok [GenerateCSR.cnOidTlv, GenerateCSR.encodeUTF8String mainDomain]) ∧
  (decodeTagLengthValue (GenerateCSR.encodeUTF8String mainDomain)
    = .ok ⟨0x0C, ((textEncoderEncode mainDomain).length : Int), textEncoderEncode mainDomain,
        GenerateCSR.encodeUTF8String mainDomain⟩) ∧
  (decodeTagLengthValue (GenerateCSR.attributesBlock domains)
    = .ok ⟨0xA0, ((GenerateCSR.extensionRequestBlock domains).length : Int),
        GenerateCSR.extensionRequestBlock domains, GenerateCSR.attributesBlock domains⟩) ∧
  (decodeSequence (GenerateCSR.extensionRequestBlock domains)
    = .ok [GenerateCSR.extensionRequestOidTlv,
        GenerateCSR.encodeSet (GenerateCSR.encodeSequence [GenerateCSR.sanExtension domains])]) ∧
  ((decodeTagLengthValue (GenerateCSR.encodeSet
        (GenerateCSR.encodeSequence [GenerateCSR.sanExtension domains]))).map Tlv.value
    = .ok (GenerateCSR.encodeSequence [GenerateCSR.sanExtension domains])) ∧
  (decodeSequence (GenerateCSR.encodeSequence [GenerateCSR.sanExtension domains])
    = .ok [GenerateCSR.sanExtension domains]) ∧
  (decodeSequence (GenerateCSR.sanExtension domains)
    = .ok [GenerateCSR.sanOidTlv, GenerateCSR.encodeOctetString (concatUint8Arrays
        [GenerateCSR.encodeSequence (domains.map GenerateCSR.encodeSanDns)])]) ∧
  ((decodeTagLengthValue (GenerateCSR.encodeOctetString (concatUint8Arrays
        [GenerateCSR.encodeSequence (domains.map GenerateCSR.encodeSanDns)]))).map Tlv.value
    = .ok (GenerateCSR.encodeSequence (domains.map GenerateCSR.encodeSanDns))) ∧
  (decodeSequence (GenerateCSR.encodeSequence (domains.map GenerateCSR.encodeSanDns))
    = .ok (domains.map GenerateCSR.encodeSanDns)) ∧
  (∀ d ∈ domains, decodeTagLengthValue (GenerateCSR.encodeSanDns d)
    = .ok ⟨0x82, ((textEncoderEncode d).length : Int), textEncoderEncode d,
        GenerateCSR.encodeSanDns d⟩)

/-! ### MARKER-MORE-DEFS (further model definitions are inserted here) -/

/-! ### Theorems: arithmetic facts about the binary helpers, leading to
the TLV round-trip lemma used by the codec and CSR claims. -/

theorem toInt32_of_lt (m : Int) (h0 : 0 ≤ m) (h : m < 2 ^ 31) : toInt32 m = m := by
  unfold toInt32
  omega

theorem natFromBytes_append (x : Nat) (as bs : List Nat) :
    natFromBytes x (as ++ bs) = natFromBytes (natFromBytes x as) bs := by
  simp [natFromBytes]

theorem le_natFromBytes (x : Nat) (bs : List Nat) : x ≤ natFromBytes x bs := by
  induction bs generalizing x with
  | nil => simp [natFromBytes]
  | cons b bs ih =>
    have h1 : x ≤ x * 256 + b := by omega
    exact le_trans h1 (ih (x * 256 + b))

theorem unsignedGo_congr :
    ∀ n f₁ f₂, n ≤ f₁ → n ≤ f₂ →
      unsignedIntegerToUint8ArrayGo f₁ n = unsignedIntegerToUint8ArrayGo f₂ n := by
  intro n
  induction n using Nat.strong_induction_on with
  | _ n ih =>
    intro f₁ f₂ h₁ h₂
    match f₁, f₂ with
    | 0, 0 => rfl
    | 0, f₂ + 1 =>
      have hn : n = 0 := by omega
      subst hn
      simp [unsignedIntegerToUint8ArrayGo]
    | f₁ + 1, 0 =>
      have hn : n = 0 := by omega
      subst hn
      simp [unsignedIntegerToUint8ArrayGo]
    | f₁ + 1, f₂ + 1 =>
      simp only [unsignedIntegerToUint8ArrayGo]
      split
      · rfl
      · rename_i h
        rw [ih (n / 256) (Nat.div_lt_self (by omega) (by omega)) f₁ f₂ (by omega) (by omega)]

theorem unsigned_unfold (n : Nat) :
    unsignedIntegerToUint8Array n =
      if n < 256 then [n % 256]
      else unsignedIntegerToUint8Array (n / 256) ++ [n % 256] := by
  unfold unsignedIntegerToUint8Array
  match n with
  | 0 => simp [unsignedIntegerToUint8ArrayGo]
  | m + 1 =>
    simp only [unsignedIntegerToUint8ArrayGo]
    by_cases h : m + 1 < 256
    · rw [if_pos h, if_pos h]
    · rw [if_neg h, if_neg h,
        unsignedGo_congr ((m + 1) / 256) m ((m + 1) / 256) (by omega) le_rfl]

theorem natFromBytes_unsigned (n : Nat) :
    natFromBytes 0 (unsignedIntegerToUint8Array n) = n := by
  induction n using Nat.strong_induction_on with
  | _ n ih =>
    rw [unsigned_unfold]
    split
    case isTrue h => simp [natFromBytes]; omega
    case isFalse h =>
      rw [natFromBytes_append, ih (n / 256) (Nat.div_lt_self (by omega) (by omega))]
      simp [natFromBytes]
      omega

theorem mem_unsigned_lt (n : Nat) : ∀ b ∈ unsignedIntegerToUint8Array n, b < 256 := by
  induction n using Nat.strong_induction_on with
  | _ n ih =>
    rw [unsigned_unfold]
    split
    case isTrue h => simp; omega
    case isFalse h =>
      intro b hb
      simp only [List.mem_append, List.mem_singleton] at hb
      rcases hb with hb | hb
      · exact ih (n / 256) (Nat.div_lt_self (by omega) (by omega)) b hb
      · omega

theorem unsigned_length_le (n k : Nat) (hk : 1 ≤ k) (h : n < 256 ^ k) :
    (unsignedIntegerToUint8Array n).length ≤ k := by
  induction k generalizing n with
  | zero => omega
  | succ k ih =>
    rw [unsigned_unfold]
    split
    case isTrue h2 => simp
    case isFalse h2 =>
      have hk2 : 1 ≤ k := by
        by_contra hk0
        have : k = 0 := by omega
        subst this
        simp at h
        omega
      have hdiv : n / 256 < 256 ^ k := by
        rw [Nat.div_lt_iff_lt_mul (by omega : 0 < 256)]
        have hpow : 256 ^ (k + 1) = 256 ^ k * 256 := pow_succ 256 k
        omega
      have := ih (n / 256) hk2 hdiv
      simp only [List.length_append, List.length_singleton]
      omega

theorem unsigned_length_pos (n : Nat) : 1 ≤ (unsignedIntegerToUint8Array n).length := by
  rw [unsigned_unfold]
  split <;> simp

theorem uint8ArrayToNumber_foldl (bs : List Nat) :
    ∀ x : Nat, natFromBytes x bs < 2 ^ 31 → (∀ b ∈ bs, b < 256) →
      List.foldl (fun (a : Int) (b : Nat) => toInt32 (a * 256) + (b : Int)) (x : Int) bs
        = natFromBytes x bs := by
  induction bs with
  | nil => intro x _ _; rfl
  | cons b bs ih =>
    intro x hlt hb
    have hstep : natFromBytes (x * 256 + b) bs < 2 ^ 31 := by
      simpa [natFromBytes] using hlt
    have hx : x * 256 + b ≤ natFromBytes (x * 256 + b) bs := le_natFromBytes _ _
    have h32 : toInt32 ((x : Int) * 256) = (x : Int) * 256 := by
      apply toInt32_of_lt
      · positivity
      · have : (x : Int) * 256 ≤ ((x * 256 + b : Nat) : Int) := by push_cast; omega
        have h2 : ((x * 256 + b : Nat) : Int) < 2 ^ 31 := by exact_mod_cast lt_of_le_of_lt hx hstep
        omega
    rw [List.foldl_cons]
    show List.foldl _ (toInt32 ((x : Int) * 256) + (b : Int)) bs = ((natFromBytes x (b :: bs) : Nat) : Int)
    have hcast : (x : Int) * 256 + (b : Int) = ((x * 256 + b : Nat) : Int) := by push_cast; ring
    rw [h32, hcast, ih (x * 256 + b) hstep (fun c hc => hb c (List.mem_cons_of_mem _ hc))]
    rfl

theorem uint8ArrayToNumber_eq (bs : List Nat) (h : natFromBytes 0 bs < 2 ^ 31)
    (hb : ∀ b ∈ bs, b < 256) : uint8ArrayToNumber bs = (natFromBytes 0 bs : Int) := by
  have := uint8ArrayToNumber_foldl bs 0 h hb
  simpa [uint8ArrayToNumber] using this

theorem land128_of_lt : ∀ c < 128, c &&& 128 = 0 := by decide

theorem lor128_of_lt : ∀ c < 128, 128 ||| c = 128 + c := by decide

theorem land127_of_lt : ∀ c < 128, (128 + c) &&& 127 = c := by decide

theorem land128_hi_of_lt : ∀ c < 128, (128 + c) &&& 128 ≠ 0 := by decide

theorem jsSlice_natCast (xs : List Nat) (s e : Nat) :
    jsSlice xs (s : Int) (e : Int) = (xs.drop s).take (e - s) := by
  unfold jsSlice
  have hs : ¬ ((s : Int) < 0) := by omega
  have he : ¬ ((e : Int) < 0) := by omega
  simp only [hs, he, if_false]
  rcases le_or_lt s xs.length with h1 | h1
  · have hmins : min (s : Int) (xs.length : Int) = (s : Int) := by
      apply min_eq_left
      omega
    rw [hmins]
    rcases le_or_lt e xs.length with h2 | h2
    · have hmine : min (e : Int) (xs.length : Int) = (e : Int) := by
        apply min_eq_left
        omega
      rw [hmine]
      have h3 : ((e : Int) - (s : Int)).toNat = e - s := by omega
      have h4 : ((s : Int)).toNat = s := by omega
      rw [h3, h4]
    · have hmine : min (e : Int) (xs.length : Int) = (xs.length : Int) := by
        apply min_eq_right
        omega
      rw [hmine]
      have h4 : ((s : Int)).toNat = s := by omega
      have h3 : ((xs.length : Int) - (s : Int)).toNat = xs.length - s := by omega
      rw [h3, h4]
      rw [List.take_of_length_le (by simp [List.length_drop]),
        List.take_of_length_le (by simp [List.length_drop]; omega)]
  · have hmins : min (s : Int) (xs.length : Int) = (xs.length : Int) := by
      apply min_eq_right
      omega
    rw [hmins]
    have hd1 : xs.drop ((xs.length : Int)).toNat = [] := by
      apply List.drop_eq_nil_of_le
      omega
    have hd2 : xs.drop s = [] := List.drop_eq_nil_of_le (by omega)
    rw [hd1, hd2]
    simp

theorem jsSliceFrom_natCast (xs : List Nat) (s : Nat) :
    jsSliceFrom xs (s : Int) = xs.drop s := by
  unfold jsSliceFrom
  have : ((xs.length : Nat) : Int) = (xs.length : Int) := rfl
  rw [jsSlice_natCast xs s xs.length]
  rcases le_or_lt s xs.length with h | h
  · exact List.take_of_length_le (by simp [List.length_drop])
  · simp [List.drop_eq_nil_of_le (le_of_lt h)]

theorem jsSlice_isInfix (xs : List Nat) (s e : Int) : (jsSlice xs s e).IsInfix xs := by
  unfold jsSlice
  exact ((List.take_prefix _ _).isInfix).trans ((List.drop_suffix _ _).isInfix)

theorem concatUint8Arrays_eq (xss : List (List Nat)) (h : ∀ b ∈ xss.flatten, b < 256) :
    concatUint8Arrays xss = xss.flatten := by
  unfold concatUint8Arrays
  exact (List.map_congr_left fun b hb => Nat.mod_eq_of_lt (h b hb)).trans (List.map_id _)

theorem mem_concatUint8Arrays_lt (xss : List (List Nat)) :
    ∀ b ∈ concatUint8Arrays xss, b < 256 := by
  unfold concatUint8Arrays
  intro b hb
  simp only [List.mem_map] at hb
  obtain ⟨a, _, rfl⟩ := hb
  exact Nat.mod_lt _ (by omega)

theorem pow256_4 : (256 : Nat) ^ 4 = 4294967296 := by norm_num

theorem length_shape (n : Nat) (hn : n < 2 ^ 31) :
    Asn1Encoder.length n =
      if n < 128 then [n]
      else (128 + (unsignedIntegerToUint8Array n).length) :: unsignedIntegerToUint8Array n := by
  unfold Asn1Encoder.length
  split
  · rfl
  · rename_i h
    have hc4 : (unsignedIntegerToUint8Array n).length ≤ 4 :=
      unsigned_length_le n 4 (by omega) (by rw [pow256_4]; omega)
    have hlor : 128 ||| (unsignedIntegerToUint8Array n).length
        = 128 + (unsignedIntegerToUint8Array n).length := lor128_of_lt _ (by omega)
    rw [hlor, concatUint8Arrays_eq]
    · simp
    · intro b hb
      simp only [List.flatten, List.mem_append, List.mem_singleton, List.append_nil] at hb
      rcases hb with hb | hb
      · omega
      · exact mem_unsigned_lt n b hb

theorem mem_length_lt (n : Nat) (hn : n < 2 ^ 31) : ∀ b ∈ Asn1Encoder.length n, b < 256 := by
  rw [length_shape n hn]
  split
  · rename_i h
    intro b hb
    simp only [List.mem_singleton] at hb
    omega
  · rename_i h
    have hc4 : (unsignedIntegerToUint8Array n).length ≤ 4 :=
      unsigned_length_le n 4 (by omega) (by rw [pow256_4]; omega)
    intro b hb
    simp only [List.mem_cons] at hb
    rcases hb with hb | hb
    · omega
    · exact mem_unsigned_lt n b hb

theorem custom_eq (tag : Nat) (v : List Nat) (htag : tag < 256)
    (hb : ∀ b ∈ v, b < 256) (hv : v.length < 2 ^ 31) :
    Asn1Encoder.custom tag v = tag :: (Asn1Encoder.length v.length ++ v) := by
  unfold Asn1Encoder.custom
  rw [concatUint8Arrays_eq]
  · simp
  · intro b hb2
    simp only [List.flatten, List.mem_append, List.mem_singleton, List.append_nil] at hb2
    rcases hb2 with hb2 | hb2 | hb2
    · omega
    · exact mem_length_lt v.length hv b hb2
    · exact hb b hb2

theorem decodeTLV_short (t n : Nat) (l : List Nat) (hn : n &&& 128 = 0) :
    decodeTagLengthValue (t :: n :: l) = .ok ⟨t, (n : Int), l.take n, t :: n :: l.take n⟩ := by
  have hrest : jsSliceFrom (t :: n :: l) 2 = l := by
    have := jsSliceFrom_natCast (t :: n :: l) 2
    simpa using this
  have hval : jsSlice l 0 (n : Int) = l.take n := by
    have := jsSlice_natCast l 0 n
    simpa using this
  have htlv : jsSlice (t :: n :: l) 0 (2 + (n : Int)) = t :: n :: l.take n := by
    have h := jsSlice_natCast (t :: n :: l) 0 (2 + n)
    have hc : ((2 + n : Nat) : Int) = 2 + (n : Int) := by push_cast; ring
    rw [hc, Nat.cast_zero] at h
    rw [h]
    have h2 : 2 + n = (n + 1) + 1 := by omega
    rw [Nat.sub_zero, List.drop_zero, h2, List.take_succ_cons, List.take_succ_cons]
  simp only [decodeTagLengthValue, hrest]
  rw [if_pos hn, hval, htlv]

theorem decodeTLV_long (t c : Nat) (l : List Nat) (hc : c < 128) :
    decodeTagLengthValue (t :: (128 + c) :: l) =
      .ok ⟨t, uint8ArrayToNumber (l.take c),
           jsSlice l (c : Int) ((c : Int) + uint8ArrayToNumber (l.take c)),
           jsSlice (t :: (128 + c) :: l) 0 (2 + (c : Int) + uint8ArrayToNumber (l.take c))⟩ := by
  have hrest : jsSliceFrom (t :: (128 + c) :: l) 2 = l := by
    have := jsSliceFrom_natCast (t :: (128 + c) :: l) 2
    simpa using this
  have hparts : jsSlice l 0 (c : Int) = l.take c := by
    have := jsSlice_natCast l 0 c
    simpa using this
  simp only [decodeTagLengthValue, hrest]
  rw [if_neg (land128_hi_of_lt c hc), land127_of_lt c hc, hparts]

theorem decodeTagLengthValue_custom (tag : Nat) (v rest : List Nat)
    (htag : tag < 256) (hv : v.length < 2 ^ 31) (hb : ∀ b ∈ v, b < 256) :
    decodeTagLengthValue (Asn1Encoder.custom tag v ++ rest) =
      .ok ⟨tag, (v.length : Int), v, Asn1Encoder.custom tag v⟩ := by
  have hceq := custom_eq tag v htag hb hv
  by_cases hsl : v.length < 128
  · have hshape : Asn1Encoder.length v.length = [v.length] := by
      rw [length_shape _ hv, if_pos hsl]
    have hinput : Asn1Encoder.custom tag v ++ rest = tag :: v.length :: (v ++ rest) := by
      rw [hceq, hshape]
      simp
    rw [hinput, decodeTLV_short tag v.length (v ++ rest) (land128_of_lt _ hsl)]
    have htake : (v ++ rest).take v.length = v := List.take_left v rest
    rw [htake, hceq, hshape]
    simp
  · have hc4 : (unsignedIntegerToUint8Array v.length).length ≤ 4 :=
      unsigned_length_le v.length 4 (by omega) (by rw [pow256_4]; omega)
    have hc0 : 1 ≤ (unsignedIntegerToUint8Array v.length).length := unsigned_length_pos _
    have hshape : Asn1Encoder.length v.length
        = (128 + (unsignedIntegerToUint8Array v.length).length)
            :: unsignedIntegerToUint8Array v.length := by
      rw [length_shape _ hv, if_neg hsl]
    set digits := unsignedIntegerToUint8Array v.length with hdig
    set c := digits.length with hc
    have hinput : Asn1Encoder.custom tag v ++ rest
        = tag :: (128 + c) :: (digits ++ (v ++ rest)) := by
      rw [hceq, hshape]
      simp
    rw [hinput, decodeTLV_long tag c (digits ++ (v ++ rest)) (by omega)]
    have htakec : (digits ++ (v ++ rest)).take c = digits := List.take_left digits (v ++ rest)
    have hnum : uint8ArrayToNumber digits = (v.length : Int) := by
      rw [hdig, uint8ArrayToNumber_eq _ (by rw [natFromBytes_unsigned]; exact hv)
        (mem_unsigned_lt _), natFromBytes_unsigned]
    have hval : jsSlice (digits ++ (v ++ rest)) (c : Int) ((c : Int) + (v.length : Int)) = v := by
      have h := jsSlice_natCast (digits ++ (v ++ rest)) c (c + v.length)
      have hcast : ((c + v.length : Nat) : Int) = (c : Int) + (v.length : Int) := by push_cast; ring
      rw [hcast] at h
      rw [h]
      have hdrop : (digits ++ (v ++ rest)).drop c = v ++ rest := List.drop_left digits (v ++ rest)
      rw [hdrop]
      have : c + v.length - c = v.length := by omega
      rw [this, List.take_left v rest]
    have htlv : jsSlice (tag :: (128 + c) :: (digits ++ (v ++ rest))) 0
        (2 + (c : Int) + (v.length : Int)) = Asn1Encoder.custom tag v := by
      have h := jsSlice_natCast (tag :: (128 + c) :: (digits ++ (v ++ rest))) 0 (2 + c + v.length)
      have hcast : ((2 + c + v.length : Nat) : Int) = 2 + (c : Int) + (v.length : Int) := by
        push_cast
        ring
      rw [hcast, Nat.cast_zero] at h
      rw [h, Nat.sub_zero, List.drop_zero]
      have h2 : 2 + c + v.length = ((c + v.length) + 1) + 1 := by omega
      rw [h2, List.take_succ_cons, List.take_succ_cons]
      have htk : (digits ++ (v ++ rest)).take (c + v.length) = digits ++ v := by
        rw [List.take_append_eq_append_take]
        have hlen : c + v.length - digits.length = v.length := by omega
        rw [hlen, List.take_of_length_le (by omega), List.take_left v rest]
      rw [htk, hceq, hshape]
      simp
    rw [htakec, hnum, hval, htlv]

theorem mem_custom_lt (t : Nat) (v : List Nat) : ∀ b ∈ Asn1Encoder.custom t v, b < 256 := by
  unfold Asn1Encoder.custom
  exact mem_concatUint8Arrays_lt _

theorem custom_length_ge (t : Nat) (v : List Nat) : 2 + v.length ≤ (Asn1Encoder.custom t v).length := by
  unfold Asn1Encoder.custom concatUint8Arrays
  simp only [List.length_map, List.flatten, List.append_nil, List.length_append,
    List.length_singleton]
  have : 1 ≤ (Asn1Encoder.length v.length).length := by
    unfold Asn1Encoder.length
    split
    · simp
    · unfold concatUint8Arrays
      simp only [List.length_map, List.flatten, List.append_nil, List.length_append,
        List.length_singleton]
      omega
  omega

theorem WfTlv.two_le (bs : List Nat) (h : WfTlv bs) : 2 ≤ bs.length := by
  obtain ⟨t, v, _, _, _, rfl⟩ := h
  have := custom_length_ge t v
  omega

theorem parts_length_le (parts : List (List Nat)) (h : ∀ p ∈ parts, 1 ≤ p.length) :
    parts.length ≤ parts.flatten.length := by
  induction parts with
  | nil => simp
  | cons p ps ih =>
    simp only [List.flatten_cons, List.length_append, List.length_cons]
    have h1 := h p (List.mem_cons_self p ps)
    have h2 := ih (fun q hq => h q (List.mem_cons_of_mem _ hq))
    omega

theorem decodeSequenceGo_flatten (parts : List (List Nat)) :
    ∀ (done : List Nat) (acc : List (List Nat)) (fuel : Nat),
      (∀ p ∈ parts, WfTlv p) → parts.length < fuel →
      decodeSequenceGo (done ++ parts.flatten)
          ((done.length : Int) + (parts.flatten.length : Int)) fuel
          (done.length : Int) acc
        = .ok (acc ++ parts) := by
  induction parts with
  | nil =>
    intro done acc fuel _ hfuel
    match fuel, hfuel with
    | fuel + 1, _ =>
      unfold decodeSequenceGo
      rw [if_neg (by simp)]
      simp
  | cons p ps ih =>
    intro done acc fuel hwf hfuel
    match fuel, hfuel with
    | fuel + 1, hf =>
      unfold decodeSequenceGo
      have hp := hwf p (List.mem_cons_self p ps)
      have hplen := WfTlv.two_le p hp
      rw [if_pos (by
        simp only [List.flatten_cons, List.length_append]
        push_cast
        omega)]
      have hdrop : jsSliceFrom (done ++ (p :: ps).flatten) (done.length : Int)
          = p ++ ps.flatten := by
        rw [jsSliceFrom_natCast, List.drop_left done _]
        simp
      obtain ⟨t, v, ht, hbv, hlv, hpeq⟩ := hp
      have hdec : decodeTagLengthValue (p ++ ps.flatten)
          = .ok ⟨t, (v.length : Int), v, Asn1Encoder.custom t v⟩ := by
        rw [hpeq]
        exact decodeTagLengthValue_custom t v ps.flatten ht hlv hbv
      rw [hdrop, hdec]
      show decodeSequenceGo (done ++ (p :: ps).flatten)
          ((done.length : Int) + ((p :: ps).flatten.length : Int)) fuel
          ((done.length : Int) + ((Asn1Encoder.custom t v).length : Int))
          (acc ++ [Asn1Encoder.custom t v]) = Except.ok (acc ++ p :: ps)
      have hassoc : done ++ (p :: ps).flatten = (done ++ p) ++ ps.flatten := by
        simp
      have hlen2 : (done.length : Int) + ((Asn1Encoder.custom t v).length : Int)
          = ((done ++ p).length : Int) := by
        rw [hpeq, List.length_append]
        push_cast
        ring
      have hlentot : (done.length : Int) + ((p :: ps).flatten.length : Int)
          = ((done ++ p).length : Int) + (ps.flatten.length : Int) := by
        simp only [List.flatten_cons, List.length_append]
        push_cast
        ring
      rw [hassoc, hlentot, hlen2, ← hpeq]
      have hfs : ps.length < fuel := by
        simp only [List.length_cons] at hf
        omega
      have := ih (done ++ p) (acc ++ [p]) fuel
        (fun q hq => hwf q (List.mem_cons_of_mem _ hq)) hfs
      rw [this]
      simp

theorem decodeSequence_parts (parts : List (List Nat))
    (h : ∀ p ∈ parts, WfTlv p) (hlen : parts.flatten.length < 2 ^ 31) :
    decodeSequence (Asn1Encoder.sequence parts) = .ok parts := by
  have hbytes : ∀ b ∈ parts.flatten, b < 256 := by
    intro b hb
    rw [List.mem_flatten] at hb
    obtain ⟨p, hpmem, hbp⟩ := hb
    obtain ⟨t, v, ht, hbv, hlv, rfl⟩ := h p hpmem
    exact mem_custom_lt t v b hbp
  have hcc : concatUint8Arrays parts = parts.flatten := concatUint8Arrays_eq parts hbytes
  unfold Asn1Encoder.sequence
  rw [hcc]
  unfold decodeSequence
  have hdec : decodeTagLengthValue (Asn1Encoder.custom 0x30 parts.flatten)
      = .ok ⟨0x30, (parts.flatten.length : Int), parts.flatten,
          Asn1Encoder.custom 0x30 parts.flatten⟩ := by
    have := decodeTagLengthValue_custom 0x30 parts.flatten [] (by norm_num) hlen hbytes
    simpa using this
  rw [hdec]
  show (if (0x30 : Nat) ≠ ASN1_TAG_SEQUENCE then Except.error "Expect tag to be 0x30."
      else decodeSequenceGo parts.flatten ((parts.flatten.length : Int))
        ((parts.flatten.length : Int)).toNat.succ 0 []) = Except.ok parts
  rw [if_neg (by unfold ASN1_TAG_SEQUENCE; omega)]
  have hfuel : parts.length < ((parts.flatten.length : Int)).toNat + 1 := by
    have h1 : parts.length ≤ parts.flatten.length :=
      parts_length_le parts (fun p hp => by
        have h2 := WfTlv.two_le p (h p hp)
        omega)
    omega
  have hgo := decodeSequenceGo_flatten parts [] [] (((parts.flatten.length : Int)).toNat + 1) h hfuel
  simp only [List.nil_append, List.length_nil, Nat.cast_zero, zero_add] at hgo
  exact hgo

theorem jsSliceFrom_isInfix (xs : List Nat) (s : Int) : (jsSliceFrom xs s).IsInfix xs := by
  unfold jsSliceFrom
  exact jsSlice_isInfix _ _ _

theorem char_toNat_lt (c : Char) : c.toNat < 1114112 := by
  have h : c.toNat < 0xd800 ∨ (0xdfff < c.toNat ∧ c.toNat < 0x110000) := c.valid
  omega

theorem utf8EncodeChar_lt (c : Char) : ∀ b ∈ utf8EncodeChar c, b < 256 := by
  have hval := char_toNat_lt c
  intro b hb
  simp only [utf8EncodeChar] at hb
  split at hb <;> [skip; split at hb] <;> [skip; skip; split at hb] <;>
    simp only [List.mem_cons, List.mem_singleton, List.not_mem_nil, or_false] at hb <;>
    omega

theorem mem_textEncoderEncode_lt (s : String) : ∀ b ∈ textEncoderEncode s, b < 256 := by
  intro b hb
  unfold textEncoderEncode at hb
  rw [List.mem_flatten] at hb
  obtain ⟨l, hl, hbl⟩ := hb
  rw [List.mem_map] at hl
  obtain ⟨c, _, rfl⟩ := hl
  exact utf8EncodeChar_lt c b hbl

set_option maxRecDepth 2000 in
theorem land128_ne_of_ge : ∀ b < 256, 128 ≤ b → b &&& 128 ≠ 0 := by decide

/-- Claim C3 (corrected): a byte sequence shorter than two bytes (missing
tag byte or missing first length byte) fails with a decode error; any
longer input decodes successfully without reading out of bounds (the value
slice is always an infix of the input), but a declared length that
overruns the available bytes is not an error: in the short form the value
slice is the first `declared length` bytes of the remainder, however many
of those actually exist, so it can be shorter than the declared length. -/
theorem claim_C3_decode_bounds (bs : List Nat) :
    ((∃ tlv, decodeTagLengthValue bs = .ok tlv) ↔ 2 ≤ bs.length) ∧
    (∀ tlv, decodeTagLengthValue bs = .ok tlv → tlv.value.IsInfix bs) ∧
    (∀ t n l, bs = t :: n :: l → n < 128 →
      decodeTagLengthValue bs = .ok ⟨t, (n : Int), l.take n, t :: n :: l.take n⟩) := by
  refine ⟨?_, ?_, ?_⟩
  · constructor
    · intro ⟨tlv, h⟩
      rcases bs with _ | ⟨t, _ | ⟨n, l⟩⟩
      · simp [decodeTagLengthValue] at h
      · simp [decodeTagLengthValue] at h
      · simp only [List.length_cons]
        omega
    · intro h
      rcases bs with _ | ⟨t, _ | ⟨n, l⟩⟩
      · simp at h
      · simp at h
      · simp only [decodeTagLengthValue]
        split
        · exact ⟨_, rfl⟩
        · exact ⟨_, rfl⟩
  · intro tlv h
    rcases bs with _ | ⟨t, _ | ⟨n, l⟩⟩
    · simp [decodeTagLengthValue] at h
    · simp [decodeTagLengthValue] at h
    · simp only [decodeTagLengthValue] at h
      split at h <;>
      · injection h with h2
        subst h2
        exact (jsSlice_isInfix _ _ _).trans (jsSliceFrom_isInfix _ _)
  · intro t n l heq hn
    subst heq
    exact decodeTLV_short t n l (land128_of_lt n hn)

/-- Witness for claim C3 at the concrete input `[0x04, 0x05]`: two bytes,
so decoding succeeds; the declared length 5 overruns the empty remainder
and the value slice is clamped to the empty list. -/
theorem claim_C3_witness :
    decodeTagLengthValue [4, 5] = .ok ⟨4, (5 : Int), List.take 5 [], 4 :: 5 :: List.take 5 []⟩ :=
  (claim_C3_decode_bounds [4, 5]).2.2 4 5 [] rfl (by norm_num)

/-- Counterexample to claim C3 as stated: on input `[0x04, 0x05]` the
declared length is 5 but only 0 value bytes exist, and the decoder
returns an empty value slice successfully instead of failing. -/
theorem claim_C3_counterexample :
    decodeTagLengthValue [4, 5] = .ok ⟨4, 5, [], [4, 5]⟩ ∧ ([] : List Nat).length < 5 := by
  constructor
  · rfl
  · norm_num

/-- Claim C4 (corrected): decoding inverts encoding for the ASN.1
primitive encoders.  For OCTET STRING, SEQUENCE and UTF8String the decoded
tag, declared length and value are exactly the encoder input (for SEQUENCE
the payload is the concatenation of the encoded children, for UTF8String
the UTF-8 bytes of the string); declared lengths use the short form below
128 and the long form otherwise.  For INTEGER, `uintBytes` rejects an
empty payload, and when the most significant bit of the first payload byte
is set the decoded value is the payload with a 0x00 byte prepended, not
the payload itself. -/
theorem claim_C4_asn1_roundtrip :
    (∀ v : List Nat, (∀ b ∈ v, b < 256) → v.length < 2 ^ 31 →
      decodeTagLengthValue (Asn1Encoder.octetString v)
        = .ok ⟨0x04, (v.length : Int), v, Asn1Encoder.octetString v⟩) ∧
    (∀ s : String, (textEncoderEncode s).length < 2 ^ 31 →
      decodeTagLengthValue (Asn1Encoder.utf8String s)
        = .ok ⟨0x0C, ((textEncoderEncode s).length : Int), textEncoderEncode s,
            Asn1Encoder.utf8String s⟩) ∧
    (∀ vs : List (List Nat), (concatUint8Arrays vs).length < 2 ^ 31 →
      decodeTagLengthValue (Asn1Encoder.sequence vs)
        = .ok ⟨0x30, ((concatUint8Arrays vs).length : Int), concatUint8Arrays vs,
            Asn1Encoder.sequence vs⟩) ∧
    (Asn1Encoder.uintBytes [] = .error "Try to encode integer but no value in Uint8Array") ∧
    (∀ b0 : Nat, ∀ t : List Nat, (∀ b ∈ b0 :: t, b < 256) → t.length + 2 < 2 ^ 31 →
      (b0 < 128 →
        Asn1Encoder.uintBytes (b0 :: t) = .ok (Asn1Encoder.custom 0x02 (b0 :: t)) ∧
        decodeTagLengthValue (Asn1Encoder.custom 0x02 (b0 :: t))
          = .ok ⟨0x02, ((b0 :: t).length : Int), b0 :: t, Asn1Encoder.custom 0x02 (b0 :: t)⟩) ∧
      (128 ≤ b0 →
        Asn1Encoder.uintBytes (b0 :: t) = .ok (Asn1Encoder.custom 0x02 (0 :: b0 :: t)) ∧
        decodeTagLengthValue (Asn1Encoder.custom 0x02 (0 :: b0 :: t))
          = .ok ⟨0x02, ((0 :: b0 :: t).length : Int), 0 :: b0 :: t,
              Asn1Encoder.custom 0x02 (0 :: b0 :: t)⟩)) ∧
    (∀ n : Nat, n < 2 ^ 31 →
      Asn1Encoder.length n = if n < 128 then [n]
        else (128 + (unsignedIntegerToUint8Array n).length) :: unsignedIntegerToUint8Array n) := by
  refine ⟨?_, ?_, ?_, rfl, ?_, fun n hn => length_shape n hn⟩
  · intro v hb hlen
    have := decodeTagLengthValue_custom 0x04 v [] (by norm_num) hlen hb
    simpa using this
  · intro s hlen
    have := decodeTagLengthValue_custom 0x0C (textEncoderEncode s) [] (by norm_num) hlen
      (mem_textEncoderEncode_lt s)
    simpa using this
  · intro vs hlen
    have := decodeTagLengthValue_custom 0x30 (concatUint8Arrays vs) [] (by norm_num) hlen
      (mem_concatUint8Arrays_lt vs)
    simpa using this
  · intro b0 t hb hlen
    have hb0 : b0 < 256 := hb b0 (List.mem_cons_self _ _)
    constructor
    · intro hlo
      have hcond : b0 &&& 128 = 0 := land128_of_lt b0 hlo
      constructor
      · simp only [Asn1Encoder.uintBytes, List.getElem?_cons_zero]
        rw [if_neg (by omega)]
      · have := decodeTagLengthValue_custom 0x02 (b0 :: t) [] (by norm_num)
          (by simp only [List.length_cons]; omega) hb
        simpa using this
    · intro hhi
      have hcond : b0 &&& 128 ≠ 0 := land128_ne_of_ge b0 hb0 hhi
      have hbytes : ∀ b ∈ (0 :: b0 :: t), b < 256 := by
        intro b hmem
        rcases List.mem_cons.mp hmem with rfl | hmem2
        · omega
        · exact hb b hmem2
      have hcc : concatUint8Arrays [[0], b0 :: t] = 0 :: b0 :: t := by
        rw [concatUint8Arrays_eq]
        · simp
        · intro b hmem
          simp only [List.flatten, List.mem_append, List.mem_singleton, List.append_nil] at hmem
          rcases hmem with rfl | hmem2
          · omega
          · exact hb b hmem2
      constructor
      · simp only [Asn1Encoder.uintBytes, List.getElem?_cons_zero]
        rw [if_pos hcond, hcc]
      · have := decodeTagLengthValue_custom 0x02 (0 :: b0 :: t) [] (by norm_num)
          (by simp only [List.length_cons]; omega) hbytes
        simpa using this

/-- Witness for claim C4 at concrete inputs: a 200-byte OCTET STRING
payload (long-form length), the string "hi", a two-child SEQUENCE, and
both INTEGER branches. -/
theorem claim_C4_witness :
    decodeTagLengthValue (Asn1Encoder.octetString (List.replicate 200 7))
        = .ok ⟨0x04, ((List.replicate 200 7 : List Nat).length : Int), List.replicate 200 7,
            Asn1Encoder.octetString (List.replicate 200 7)⟩ ∧
    decodeTagLengthValue (Asn1Encoder.utf8String "hi")
        = .ok ⟨0x0C, ((textEncoderEncode "hi").length : Int), textEncoderEncode "hi",
            Asn1Encoder.utf8String "hi"⟩ ∧
    decodeTagLengthValue (Asn1Encoder.sequence [[2, 1, 5], [4, 0]])
        = .ok ⟨0x30, ((concatUint8Arrays [[2, 1, 5], [4, 0]]).length : Int),
            concatUint8Arrays [[2, 1, 5], [4, 0]],
            Asn1Encoder.sequence [[2, 1, 5], [4, 0]]⟩ ∧
    Asn1Encoder.uintBytes [5] = .ok (Asn1Encoder.custom 0x02 [5]) ∧
    Asn1Encoder.uintBytes [128] = .ok (Asn1Encoder.custom 0x02 [0, 128]) :=
  ⟨claim_C4_asn1_roundtrip.1 (List.replicate 200 7)
      (fun b hb => by rw [List.eq_of_mem_replicate hb]; norm_num) (by norm_num),
   claim_C4_asn1_roundtrip.2.1 "hi" (by decide),
   claim_C4_asn1_roundtrip.2.2.1 [[2, 1, 5], [4, 0]] (by decide),
   ((claim_C4_asn1_roundtrip.2.2.2.2.1 5 [] (by decide) (by norm_num)).1 (by norm_num)).1,
   ((claim_C4_asn1_roundtrip.2.2.2.2.1 128 [] (by decide) (by norm_num)).2 (by norm_num)).1⟩

/-- Counterexample to claim C4 as stated: for the INTEGER encoder the
decoded value is not the input payload when the most significant bit of
the first byte is set: `uintBytes [0x80]` encodes to `[2, 2, 0, 128]`,
which decodes to the value `[0x00, 0x80]`, not `[0x80]`. -/
theorem claim_C4_counterexample :
    Asn1Encoder.uintBytes [128] = .ok [2, 2, 0, 128] ∧
    decodeTagLengthValue [2, 2, 0, 128] = .ok ⟨2, 2, [0, 128], [2, 2, 0, 128]⟩ ∧
    ([0, 128] : List Nat) ≠ [128] := by
  refine ⟨rfl, rfl, by decide⟩

set_option maxRecDepth 4000 in
theorem b64Char_ne_pad : ∀ m < 64, Encoding.b64Char m ≠ '=' := by decide

set_option maxRecDepth 4000 in
theorem b64UrlChar_charset : ∀ m < 64,
    EncodingV2.b64UrlChar m ≠ '=' ∧ EncodingV2.b64UrlChar m ≠ '+' ∧
      EncodingV2.b64UrlChar m ≠ '/' := by decide

theorem btoa_decomp_aux : ∀ (n : Nat) (bs : List Nat), bs.length ≤ n → (∀ b ∈ bs, b < 256) →
    ∃ body pads, Encoding.btoa bs = body ++ List.replicate pads '=' ∧ pads ≤ 2 ∧
      ∀ c ∈ body, ∃ m, m < 64 ∧ c = Encoding.b64Char m := by
  intro n
  induction n with
  | zero =>
    intro bs hlen hb
    have hnil : bs = [] := List.eq_nil_of_length_eq_zero (by omega)
    subst hnil
    exact ⟨[], 0, by simp [Encoding.btoa], by omega, by simp⟩
  | succ n ih =>
    intro bs hlen hb
    match bs with
    | [] => exact ⟨[], 0, by simp [Encoding.btoa], by omega, by simp⟩
    | [b1] =>
      have h1 : b1 < 256 := hb b1 (by simp)
      refine ⟨[Encoding.b64Char (b1 / 4), Encoding.b64Char (b1 % 4 * 16)], 2, by rfl, by omega, ?_⟩
      intro c hc
      simp only [List.mem_cons, List.not_mem_nil, or_false] at hc
      rcases hc with rfl | rfl
      · exact ⟨b1 / 4, by omega, rfl⟩
      · exact ⟨b1 % 4 * 16, by omega, rfl⟩
    | [b1, b2] =>
      have h1 : b1 < 256 := hb b1 (by simp)
      have h2 : b2 < 256 := hb b2 (by simp)
      refine ⟨[Encoding.b64Char (b1 / 4), Encoding.b64Char (b1 % 4 * 16 + b2 / 16),
        Encoding.b64Char (b2 % 16 * 4)], 1, by rfl, by omega, ?_⟩
      intro c hc
      simp only [List.mem_cons, List.not_mem_nil, or_false] at hc
      rcases hc with rfl | rfl | rfl
      · exact ⟨b1 / 4, by omega, rfl⟩
      · exact ⟨b1 % 4 * 16 + b2 / 16, by omega, rfl⟩
      · exact ⟨b2 % 16 * 4, by omega, rfl⟩
    | b1 :: b2 :: b3 :: rest =>
      have h1 : b1 < 256 := hb b1 (by simp)
      have h2 : b2 < 256 := hb b2 (by simp)
      have h3 : b3 < 256 := hb b3 (by simp)
      obtain ⟨body, pads, heq, hp, hmem⟩ := ih rest
        (by simp only [List.length_cons] at hlen; omega)
        (fun b hb2 => hb b (by simp [hb2]))
      refine ⟨[Encoding.b64Char (b1 / 4), Encoding.b64Char (b1 % 4 * 16 + b2 / 16),
        Encoding.b64Char (b2 % 16 * 4 + b3 / 64), Encoding.b64Char (b3 % 64)] ++ body, pads,
        ?_, hp, ?_⟩
      · show Encoding.btoa (b1 :: b2 :: b3 :: rest) = _
        rw [Encoding.btoa, heq]
        simp
      · intro c hc
        simp only [List.mem_append, List.mem_cons, List.not_mem_nil, or_false] at hc
        rcases hc with (rfl | rfl | rfl | rfl) | hc
        · exact ⟨b1 / 4, by omega, rfl⟩
        · exact ⟨b1 % 4 * 16 + b2 / 16, by omega, rfl⟩
        · exact ⟨b2 % 16 * 4 + b3 / 64, by omega, rfl⟩
        · exact ⟨b3 % 64, by omega, rfl⟩
        · exact hmem c hc

theorem replacePadEnd_strip (body : List Char) (pads : Nat) (hp : pads ≤ 2)
    (hbody : ∀ c ∈ body, c ≠ '=') :
    Encoding.replacePadEnd (body ++ List.replicate pads '=') = body := by
  interval_cases pads
  · rw [List.replicate_zero, List.append_nil]
    rcases hrev : body.reverse with _ | ⟨c, r⟩
    · have hbody0 : body = [] := by simpa using congrArg List.reverse hrev
      subst hbody0
      rfl
    · have hc : c ∈ body := by
        rw [← List.mem_reverse, hrev]
        simp
      unfold Encoding.replacePadEnd
      rw [hrev]
      split
      · rename_i rest heq
        injection heq with heq1
        exact absurd heq1 (hbody c hc)
      · rename_i rest heq
        injection heq with heq1
        exact absurd heq1 (hbody c hc)
      · rfl
  · rcases hrev : body.reverse with _ | ⟨c, r⟩
    · have hbody0 : body = [] := by simpa using congrArg List.reverse hrev
      subst hbody0
      rfl
    · have hc : c ∈ body := by
        rw [← List.mem_reverse, hrev]
        simp
      have hbodyeq : body = (c :: r).reverse := by
        rw [← hrev, List.reverse_reverse]
      unfold Encoding.replacePadEnd
      have hscrut : (body ++ List.replicate 1 '=').reverse = '=' :: c :: r := by
        simp [hrev]
      rw [hscrut]
      split
      · rename_i rest heq
        injection heq with _ heq2
        injection heq2 with heq3
        exact absurd heq3 (hbody c hc)
      · rename_i rest heq
        injection heq with _ heq2
        rw [← heq2, ← hbodyeq]
      · rename_i hne1 hne2
        exact absurd rfl (hne2 (c :: r))
  · unfold Encoding.replacePadEnd
    have hscrut : (body ++ List.replicate 2 '=').reverse = '=' :: '=' :: body.reverse := by
      simp
    rw [hscrut]
    show body.reverse.reverse = body
    exact List.reverse_reverse body

theorem swap_chars_notin (L : List Char) (hL : ∀ c ∈ L, c ≠ '=') :
    '=' ∉ L.map (fun c => if c = '+' then '-' else if c = '/' then '_' else c) ∧
    '+' ∉ L.map (fun c => if c = '+' then '-' else if c = '/' then '_' else c) ∧
    '/' ∉ L.map (fun c => if c = '+' then '-' else if c = '/' then '_' else c) := by
  refine ⟨?_, ?_, ?_⟩ <;> intro hmem <;> rw [List.mem_map] at hmem <;>
    obtain ⟨c, hc, hswap⟩ := hmem
  · split_ifs at hswap with h1 h2
    · exact absurd hswap (by decide)
    · exact absurd hswap (by decide)
    · exact hL c hc hswap
  · split_ifs at hswap with h1 h2
    · exact absurd hswap (by decide)
    · exact absurd hswap (by decide)
    · exact h1 hswap
  · split_ifs at hswap with h1 h2
    · exact absurd hswap (by decide)
    · exact absurd hswap (by decide)
    · exact h2 hswap

theorem toBase64UrlChars_mem : ∀ (n : Nat) (bs : List Nat), bs.length ≤ n →
    (∀ b ∈ bs, b < 256) →
    ∀ c ∈ EncodingV2.toBase64UrlChars bs, ∃ m, m < 64 ∧ c = EncodingV2.b64UrlChar m := by
  intro n
  induction n with
  | zero =>
    intro bs hlen hb
    have hnil : bs = [] := List.eq_nil_of_length_eq_zero (by omega)
    subst hnil
    simp [EncodingV2.toBase64UrlChars]
  | succ n ih =>
    intro bs hlen hb
    match bs with
    | [] => simp [EncodingV2.toBase64UrlChars]
    | [b1] =>
      have h1 : b1 < 256 := hb b1 (by simp)
      intro c hc
      simp only [EncodingV2.toBase64UrlChars, List.mem_cons, List.not_mem_nil, or_false] at hc
      rcases hc with rfl | rfl
      · exact ⟨b1 / 4, by omega, rfl⟩
      · exact ⟨b1 % 4 * 16, by omega, rfl⟩
    | [b1, b2] =>
      have h1 : b1 < 256 := hb b1 (by simp)
      have h2 : b2 < 256 := hb b2 (by simp)
      intro c hc
      simp only [EncodingV2.toBase64UrlChars, List.mem_cons, List.not_mem_nil, or_false] at hc
      rcases hc with rfl | rfl | rfl
      · exact ⟨b1 / 4, by omega, rfl⟩
      · exact ⟨b1 % 4 * 16 + b2 / 16, by omega, rfl⟩
      · exact ⟨b2 % 16 * 4, by omega, rfl⟩
    | b1 :: b2 :: b3 :: rest =>
      have h1 : b1 < 256 := hb b1 (by simp)
      have h2 : b2 < 256 := hb b2 (by simp)
      have h3 : b3 < 256 := hb b3 (by simp)
      intro c hc
      rw [EncodingV2.toBase64UrlChars] at hc
      simp only [List.mem_append, List.mem_cons, List.not_mem_nil, or_false] at hc
      rcases hc with (rfl | rfl | rfl | rfl) | hc
      · exact ⟨b1 / 4, by omega, rfl⟩
      · exact ⟨b1 % 4 * 16 + b2 / 16, by omega, rfl⟩
      · exact ⟨b2 % 16 * 4 + b3 / 64, by omega, rfl⟩
      · exact ⟨b3 % 64, by omega, rfl⟩
      · exact ih rest (by simp only [List.length_cons] at hlen; omega)
          (fun b hb2 => hb b (by simp [hb2])) c hc

/-- Claim C10 (confirmed): for every byte input, both `encodeBase64Url`
implementations return an unpadded base64url string: the output never
contains the characters `=`, `+` or `/`.  Byte inputs cover the
`ArrayBuffer` and `Uint8Array` argument forms and the char codes of any
string btoa accepts. -/
theorem claim_C10_base64url_charset (bytes : List Nat) (hb : ∀ b ∈ bytes, b < 256) :
    ('=' ∉ (Encoding.encodeBase64Url bytes).data ∧
      '+' ∉ (Encoding.encodeBase64Url bytes).data ∧
      '/' ∉ (Encoding.encodeBase64Url bytes).data) ∧
    ('=' ∉ (EncodingV2.encodeBase64Url bytes).data ∧
      '+' ∉ (EncodingV2.encodeBase64Url bytes).data ∧
      '/' ∉ (EncodingV2.encodeBase64Url bytes).data) := by
  constructor
  · obtain ⟨body, pads, heq, hp, hmem⟩ := btoa_decomp_aux bytes.length bytes le_rfl hb
    have hbody : ∀ c ∈ body, c ≠ '=' := by
      intro c hc
      obtain ⟨m, hm, rfl⟩ := hmem c hc
      exact b64Char_ne_pad m hm
    have hdata : (Encoding.encodeBase64Url bytes).data
        = (Encoding.replacePadEnd (Encoding.btoa bytes)).map
            (fun c => if c = '+' then '-' else if c = '/' then '_' else c) := rfl
    rw [hdata, heq, replacePadEnd_strip body pads hp hbody]
    exact swap_chars_notin body hbody
  · have hdata : (EncodingV2.encodeBase64Url bytes).data
        = EncodingV2.toBase64UrlChars bytes := rfl
    rw [hdata]
    have hmem := toBase64UrlChars_mem bytes.length bytes le_rfl hb
    refine ⟨?_, ?_, ?_⟩ <;> intro hin
    · obtain ⟨m, hm, heq⟩ := hmem '=' hin
      exact (b64UrlChar_charset m hm).1 heq.symm
    · obtain ⟨m, hm, heq⟩ := hmem '+' hin
      exact (b64UrlChar_charset m hm).2.1 heq.symm
    · obtain ⟨m, hm, heq⟩ := hmem '/' hin
      exact (b64UrlChar_charset m hm).2.2 heq.symm

/-- Witness for claim C10 at the bytes `[251, 255, 190]`, whose base64
body is made of the characters that need replacing. -/
theorem claim_C10_witness :
    ('=' ∉ (Encoding.encodeBase64Url [251, 255, 190]).data ∧
      '+' ∉ (Encoding.encodeBase64Url [251, 255, 190]).data ∧
      '/' ∉ (Encoding.encodeBase64Url [251, 255, 190]).data) ∧
    ('=' ∉ (EncodingV2.encodeBase64Url [251, 255, 190]).data ∧
      '+' ∉ (EncodingV2.encodeBase64Url [251, 255, 190]).data ∧
      '/' ∉ (EncodingV2.encodeBase64Url [251, 255, 190]).data) :=
  claim_C10_base64url_charset [251, 255, 190] (by decide)

/-- Claim C5 (confirmed): every successful `jwsFetch` consumes exactly one
nonce - the front of the queue, or the freshly fetched one when the queue
is empty - and appends exactly one new nonce at the back, taken from the
Replay-Nonce response header or freshly fetched when that header is
absent; the rest of the queue passes through unchanged, so consumption is
first-in first-out. -/
theorem claim_C5_nonce_queue (q : List String) (h1 h2 rh : Option String)
    (out : String × List String) (hout : AcmeClient.jwsFetch q h1 h2 rh = .ok out) :
    (∃ newNonce, out.2 = q.tail ++ [newNonce] ∧
      (rh = some newNonce ∨ (rh = none ∧ h2 = some newNonce))) ∧
    (∀ n rest, q = n :: rest → out.1 = n) ∧
    (q = [] → h1 = some out.1) := by
  rcases q with _ | ⟨n, rest⟩
  · rcases h1 with _ | f
    · rcases rh with _ | m <;>
        simp [AcmeClient.jwsFetch, AcmeClient.fetchNonce, bind, Except.bind] at hout
    · rcases rh with _ | m
      · rcases h2 with _ | g
        · simp [AcmeClient.jwsFetch, AcmeClient.fetchNonce, bind, Except.bind] at hout
        · simp only [AcmeClient.jwsFetch, AcmeClient.fetchNonce, List.head?, List.tail,
            bind, Except.bind, Except.ok.injEq] at hout
          subst hout
          exact ⟨⟨g, rfl, Or.inr ⟨rfl, rfl⟩⟩, fun n rest h => List.noConfusion h, fun _ => rfl⟩
      · simp only [AcmeClient.jwsFetch, AcmeClient.fetchNonce, List.head?, List.tail,
          bind, Except.bind, Except.ok.injEq] at hout
        subst hout
        exact ⟨⟨m, rfl, Or.inl rfl⟩, fun n rest h => List.noConfusion h, fun _ => rfl⟩
  · rcases rh with _ | m
    · rcases h2 with _ | g
      · simp [AcmeClient.jwsFetch, AcmeClient.fetchNonce, bind, Except.bind] at hout
      · simp only [AcmeClient.jwsFetch, AcmeClient.fetchNonce, List.head?, List.tail,
          bind, Except.bind, Except.ok.injEq] at hout
        subst hout
        exact ⟨⟨g, rfl, Or.inr ⟨rfl, rfl⟩⟩,
          fun n2 rest2 h => by cases h; rfl, fun h => List.noConfusion h⟩
    · simp only [AcmeClient.jwsFetch, AcmeClient.fetchNonce, List.head?, List.tail,
        bind, Except.bind, Except.ok.injEq] at hout
      subst hout
      exact ⟨⟨m, rfl, Or.inl rfl⟩,
        fun n2 rest2 h => by cases h; rfl, fun h => List.noConfusion h⟩

/-- Witness for claim C5: a queue holding two nonces, a response carrying
a Replay-Nonce header; the front nonce is consumed and the harvested nonce
is appended behind the remaining one. -/
theorem claim_C5_witness :
    (∃ newNonce, (("nonce1", ["nonce2", "nonce3"]) : String × List String).2
        = (["nonce1", "nonce2"] : List String).tail ++ [newNonce] ∧
      ((some "nonce3" : Option String) = some newNonce ∨
        ((some "nonce3" : Option String) = none ∧ (none : Option String) = some newNonce))) ∧
    (∀ n rest, (["nonce1", "nonce2"] : List String) = n :: rest →
      (("nonce1", ["nonce2", "nonce3"]) : String × List String).1 = n) ∧
    ((["nonce1", "nonce2"] : List String) = [] →
      (none : Option String) = some (("nonce1", ["nonce2", "nonce3"]) : String × List String).1) :=
  claim_C5_nonce_queue ["nonce1", "nonce2"] none none (some "nonce3")
    ("nonce1", ["nonce2", "nonce3"]) rfl

/-- Claim C2 (code_bug): in the wildcard scenario the requested domains
are the wildcard and base forms while a conforming server returns both
authorizations with the base identifier, one flagged wildcard.
`AcmeAuthorization.init` ignores the wildcard flag and exposes the base
identifier as the domain of both authorizations, so the order
initialization cannot match the requested wildcard domain and throws,
instead of yielding two authorizations with the wildcard entry rendering
`*.example.com`. -/
theorem claim_C2_wildcard_matching_bug :
    AcmeOrder.init wildcardOrderDomains wildcardOrderAuthorizationResponses
      = .error "cannot find authorization for *.example.com" ∧
    (AcmeAuthorization.init "https://ca.example/authz/1"
        { identifier := { type := "dns", value := "example.com" }
          wildcard := some true
          challenges := [] }).map AcmeAuthorizationModel.domain
      = .ok "example.com" := by
  exact ⟨rfl, rfl⟩

/-- Claim C6 (confirmed): `digestToken` is exactly
base64url(SHA-256(token + "." + thumbprint)) with the thumbprint
base64url(SHA-256(canonical JSON of crv, kty, x, y)), and for a challenge
of an authorization built from a server response with a dns identifier the
DNS-01 record answer is the TXT record named
`_acme-challenge.<domain>.` with the digested token as content, where the
domain is the servers identifier value, which carries no wildcard prefix -
its first two characters are not star dot - since RFC 8555 identifiers are
always the base name. -/
theorem claim_C6_dns01_digest (sha256 : List Nat → List Nat) (jwk : Jwk) (token : String)
    (url : String) (resp : AcmeAuthorizationResponse) (a : AcmeAuthorizationModel)
    (hinit : AcmeAuthorization.init url resp = .ok a)
    (hwild : resp.identifier.value.data.take 2 ≠ ['*', '.']) :
    AcmeChallenge.digestToken sha256 jwk token
      = Encoding.encodeBase64Url (sha256 (textEncoderEncode (token ++ "." ++
          Encoding.encodeBase64Url (sha256 (textEncoderEncode (jwkCanonicalJson jwk)))))) ∧
    Dns01Challenge.getDnsRecordAnswer sha256 a.domain jwk token
      = { name := "_acme-challenge." ++ resp.identifier.value ++ "."
          type := "TXT"
          content := AcmeChallenge.digestToken sha256 jwk token } ∧
    a.domain.data.take 2 ≠ ['*', '.'] := by
  have hdom : a.domain = resp.identifier.value := by
    unfold AcmeAuthorization.init at hinit
    split at hinit
    · cases hinit
    · injection hinit with h
      rw [← h]
  refine ⟨rfl, ?_, ?_⟩
  · rw [Dns01Challenge.getDnsRecordAnswer, hdom]
  · rw [hdom]
    exact hwild

/-- Witness for claim C6 at a concrete authorization response, token and
JWK, with the hash abstracted as the identity function on byte lists. -/
theorem claim_C6_witness :
    AcmeChallenge.digestToken (fun bs => bs) ⟨"P-256", "EC", "xval", "yval"⟩ "token7"
      = Encoding.encodeBase64Url ((fun bs => bs) (textEncoderEncode ("token7" ++ "." ++
          Encoding.encodeBase64Url ((fun bs => bs)
            (textEncoderEncode (jwkCanonicalJson ⟨"P-256", "EC", "xval", "yval"⟩)))))) ∧
    Dns01Challenge.getDnsRecordAnswer (fun bs => bs)
        (AcmeAuthorizationModel.mk "https://ca.example/authz/9" "example.org"
          []).domain ⟨"P-256", "EC", "xval", "yval"⟩ "token7"
      = { name := "_acme-challenge." ++ "example.org" ++ "."
          type := "TXT"
          content := AcmeChallenge.digestToken (fun bs => bs)
            ⟨"P-256", "EC", "xval", "yval"⟩ "token7" } ∧
    (AcmeAuthorizationModel.mk "https://ca.example/authz/9" "example.org"
      []).domain.data.take 2 ≠ ['*', '.'] :=
  claim_C6_dns01_digest (fun bs => bs) ⟨"P-256", "EC", "xval", "yval"⟩ "token7"
    "https://ca.example/authz/9"
    { identifier := { type := "dns", value := "example.org" }, wildcard := none,
      challenges := [] }
    (AcmeAuthorizationModel.mk "https://ca.example/authz/9" "example.org" [])
    rfl (by decide)

/-- Claim C9 (code bug): the source `AcmeClient.login` signs the same
newAccount URL with the same jwk header shape as account creation, but -
contrary to the claim - sends no payload at all (no onlyReturnExisting
flag, so its request differs from the spec-described one), and on an
unsuccessful response it rethrows the raw problem JSON whatever its type:
a response carrying the accountDoesNotExist problem type is never
surfaced as the distinguished error the spec and the repository's own
integration test expect. -/
theorem claim_C9_login_bug :
    (loginRequest "https://ca.example/new-account").url
      = (createAccountRequest "https://ca.example/new-account" "me@example.org").url ∧
    (loginRequest "https://ca.example/new-account").usesJwkHeader
      = (createAccountRequest "https://ca.example/new-account" "me@example.org").usesJwkHeader ∧
    (loginRequest "https://ca.example/new-account").payload = none ∧
    loginRequest "https://ca.example/new-account"
      ≠ specLoginRequest "https://ca.example/new-account" ∧
    loginHandleResponse
        { ok := false, errorType := ACME_ERROR_TYPES.ACCOUNT_DOES_NOT_EXIST,
          location := none }
      = .error (.thrownJson ACME_ERROR_TYPES.ACCOUNT_DOES_NOT_EXIST) ∧
    specLoginHandleResponse
        { ok := false, errorType := ACME_ERROR_TYPES.ACCOUNT_DOES_NOT_EXIST,
          location := none }
      = .error .accountDoesNotExist ∧
    loginHandleResponse
        { ok := false, errorType := ACME_ERROR_TYPES.ACCOUNT_DOES_NOT_EXIST,
          location := none }
      ≠ specLoginHandleResponse
          { ok := false, errorType := ACME_ERROR_TYPES.ACCOUNT_DOES_NOT_EXIST,
            location := none } := by
  refine ⟨rfl, rfl, rfl, by decide, rfl, rfl, ?_⟩
  intro h
  exact absurd (Except.error.inj h) (by decide)

theorem pollGo_ok_iff (resolveTxt : Nat → List (List (List String)))
    (pollUntil : List String) (interval timeout : Nat) (hI : 0 < interval) :
    ∀ (k : Nat) (latest : Option (List (List String))),
      (pollGo resolveTxt pollUntil interval timeout hI k latest = .ok () ↔
        ∃ j, k ≤ j ∧ j * interval ≤ timeout ∧
          pollSuccess pollUntil ((resolveTxt j).map joinChunks) = true) := by
  suffices H : ∀ (m k : Nat) (latest : Option (List (List String))),
      timeout + 1 - k * interval ≤ m →
      (pollGo resolveTxt pollUntil interval timeout hI k latest = .ok () ↔
        ∃ j, k ≤ j ∧ j * interval ≤ timeout ∧
          pollSuccess pollUntil ((resolveTxt j).map joinChunks) = true) by
    intro k latest
    exact H (timeout + 1 - k * interval) k latest le_rfl
  intro m
  induction m with
  | zero =>
    intro k latest hm
    have hk : ¬ k * interval ≤ timeout := by omega
    rw [pollGo]
    rw [if_neg hk]
    constructor
    · intro h
      cases h
    · rintro ⟨j, hkj, hjt, _⟩
      exfalso
      have hmono : k * interval ≤ j * interval := Nat.mul_le_mul_right interval hkj
      omega
  | succ m ih =>
    intro k latest hm
    rw [pollGo]
    by_cases hk : k * interval ≤ timeout
    · rw [if_pos hk]
      by_cases hs : pollSuccess pollUntil ((resolveTxt k).map joinChunks) = true
      · rw [if_pos hs]
        exact iff_of_true rfl ⟨k, le_rfl, hk, hs⟩
      · rw [if_neg hs]
        have hmeas : timeout + 1 - (k + 1) * interval ≤ m := by
          have hmul : (k + 1) * interval = k * interval + interval := by ring
          omega
        rw [ih (k + 1) (some ((resolveTxt k).map joinChunks)) hmeas]
        constructor
        · rintro ⟨j, hkj, hjt, hsj⟩
          exact ⟨j, by omega, hjt, hsj⟩
        · rintro ⟨j, hkj, hjt, hsj⟩
          refine ⟨j, ?_, hjt, hsj⟩
          rcases Nat.eq_or_lt_of_le hkj with rfl | hlt
          · exact absurd hsj hs
          · omega
    · rw [if_neg hk]
      constructor
      · intro h
        cases h
      · rintro ⟨j, hkj, hjt, _⟩
        exfalso
        have hmono : k * interval ≤ j * interval := Nat.mul_le_mul_right interval hkj
        omega

theorem pollGo_timeout (resolveTxt : Nat → List (List (List String)))
    (pollUntil : List String) (interval timeout : Nat) (hI : 0 < interval) :
    ∀ (m k : Nat) (latest : Option (List (List String))),
      timeout + 1 - k * interval ≤ m →
      (∀ j, k ≤ j → j * interval ≤ timeout →
        pollSuccess pollUntil ((resolveTxt j).map joinChunks) = false) →
      k * interval ≤ timeout →
      pollGo resolveTxt pollUntil interval timeout hI k latest
        = .error (some ((resolveTxt (timeout / interval)).map joinChunks)) := by
  intro m
  induction m with
  | zero =>
    intro k latest hm hfail hk
    omega
  | succ m ih =>
    intro k latest hm hfail hk
    rw [pollGo]
    rw [if_pos hk, if_neg (by simp [hfail k le_rfl hk])]
    by_cases hk1 : (k + 1) * interval ≤ timeout
    · have hmeas : timeout + 1 - (k + 1) * interval ≤ m := by
        have hmul : (k + 1) * interval = k * interval + interval := by ring
        omega
      exact ih (k + 1) (some ((resolveTxt k).map joinChunks)) hmeas
        (fun j hj => hfail j (by omega)) hk1
    · rw [pollGo]
      rw [if_neg hk1]
      have h1 : k ≤ timeout / interval := (Nat.le_div_iff_mul_le hI).mpr hk
      have h2 : timeout / interval < k + 1 := (Nat.div_lt_iff_lt_mul hI).mpr (by omega)
      have hdiv : timeout / interval = k := by omega
      rw [hdiv]

/-- Claim C7 (confirmed): under the idealized clock in which the k-th
attempt happens at time k * interval, `pollDnsTxtRecord` returns exactly
when some attempt within the timeout window finds every required
pollUntil value in the joined TXT answer set of every queried server; if
no attempt in the window succeeds it throws the timeout error carrying
the most recent per-server answers (those of the last attempt, at index
timeout / interval); and absent options default to interval 5000 and
timeout 30000. -/
theorem claim_C7_poll_dns_txt (resolveTxt : Nat → List (List (List String)))
    (domain : String) (pu : PollUntil) (i t : Nat) (hi : 0 < i) :
    (pollDnsTxtRecord resolveTxt domain
        { pollUntil := pu, interval := some i, timeout := some t } = .ok () ↔
      ∃ k, k * i ≤ t ∧ pollSuccess pu.toList ((resolveTxt k).map joinChunks) = true) ∧
    ((∀ k, k * i ≤ t → pollSuccess pu.toList ((resolveTxt k).map joinChunks) = false) →
      pollDnsTxtRecord resolveTxt domain
          { pollUntil := pu, interval := some i, timeout := some t }
        = .error (some ((resolveTxt (t / i)).map joinChunks))) ∧
    (pollDnsTxtRecord resolveTxt domain { pollUntil := pu, interval := none, timeout := none }
      = pollDnsTxtRecord resolveTxt domain
          { pollUntil := pu, interval := some 5000, timeout := some 30000 }) := by
  refine ⟨?_, ?_, rfl⟩
  · have hunf : pollDnsTxtRecord resolveTxt domain
        { pollUntil := pu, interval := some i, timeout := some t }
        = pollGo resolveTxt pu.toList i t hi 0 none := by
      simp only [pollDnsTxtRecord, Option.getD]
      rw [dif_pos hi]
    rw [hunf, pollGo_ok_iff resolveTxt pu.toList i t hi 0 none]
    constructor
    · rintro ⟨j, _, hjt, hsj⟩
      exact ⟨j, hjt, hsj⟩
    · rintro ⟨j, hjt, hsj⟩
      exact ⟨j, Nat.zero_le j, hjt, hsj⟩
  · intro hfail
    have hunf : pollDnsTxtRecord resolveTxt domain
        { pollUntil := pu, interval := some i, timeout := some t }
        = pollGo resolveTxt pu.toList i t hi 0 none := by
      simp only [pollDnsTxtRecord, Option.getD]
      rw [dif_pos hi]
    rw [hunf]
    exact pollGo_timeout resolveTxt pu.toList i t hi (t + 1) 0 none (by omega)
      (fun j _ => hfail j) (by simp)

/-- Witness for claim C7: with one queried server answering the chunked
record a, b the poll for content ab succeeds within a 200 ms window at
50 ms intervals, and with one server answering no records at all it times
out carrying that servers empty answer set. -/
theorem claim_C7_witness :
    pollDnsTxtRecord (fun _ => [[["a", "b"]]]) "_acme-challenge.example.com."
        { pollUntil := .single "ab", interval := some 50, timeout := some 200 } = .ok () ∧
    pollDnsTxtRecord (fun _ => [[]]) "_acme-challenge.example.com."
        { pollUntil := .single "ab", interval := some 50, timeout := some 200 }
      = .error (some (List.map joinChunks [[]])) :=
  ⟨(claim_C7_poll_dns_txt (fun _ => [[["a", "b"]]]) "_acme-challenge.example.com."
      (.single "ab") 50 200 (by norm_num)).1.mpr ⟨0, by norm_num, by decide⟩,
   (claim_C7_poll_dns_txt (fun _ => [[]]) "_acme-challenge.example.com."
      (.single "ab") 50 200 (by norm_num)).2.1 (fun k _ => by decide)⟩

theorem signedRequestGo_unfold (server : Nat → AcmeResponse) (nonces : Nat → String)
    (payload : String) (attempt : Nat) :
    signedRequestGo server nonces payload attempt =
      if (server attempt).isBadNonce then
        if attempt < MAX_BAD_NONCE_RETRIES then
          ((nonces attempt, payload)
              :: (signedRequestGo server nonces payload (attempt + 1)).1,
            (signedRequestGo server nonces payload (attempt + 1)).2)
        else ([(nonces attempt, payload)], .badNonceFailure)
      else ([(nonces attempt, payload)], .response attempt (server attempt)) := by
  rw [signedRequestGo]
  rfl

theorem signedRequestGo_success (server : Nat → AcmeResponse) (nonces : Nat → String)
    (payload : String) (N : Nat) (hN : N ≤ MAX_BAD_NONCE_RETRIES)
    (hok : (server N).isBadNonce = false) :
    ∀ (d a : Nat), N = a + d → (∀ k, a ≤ k → k < N → (server k).isBadNonce = true) →
      signedRequestGo server nonces payload a
        = ((List.range' a (d + 1)).map (fun k => (nonces k, payload)),
            .response N (server N)) := by
  intro d
  induction d with
  | zero =>
    intro a ha _
    subst ha
    rw [signedRequestGo_unfold, if_neg (by simp [hok])]
    rfl
  | succ d ih =>
    intro a ha hbad
    have haN : a < N := by omega
    have hrec := ih (a + 1) (by omega) (fun k hk1 hk2 => hbad k (by omega) hk2)
    rw [signedRequestGo_unfold, if_pos (hbad a le_rfl haN), if_pos (by omega), hrec]
    simp [List.range'_succ]

theorem signedRequestGo_exhaust (server : Nat → AcmeResponse) (nonces : Nat → String)
    (payload : String) (hbad : ∀ k, k ≤ MAX_BAD_NONCE_RETRIES → (server k).isBadNonce = true) :
    ∀ (d a : Nat), MAX_BAD_NONCE_RETRIES = a + d →
      signedRequestGo server nonces payload a
        = ((List.range' a (d + 1)).map (fun k => (nonces k, payload)), .badNonceFailure) := by
  intro d
  induction d with
  | zero =>
    intro a ha
    rw [signedRequestGo_unfold, if_pos (hbad a (by omega)), if_neg (by omega)]
    rfl
  | succ d ih =>
    intro a ha
    rw [signedRequestGo_unfold, if_pos (hbad a (by omega)), if_pos (by omega),
      ih (a + 1) (by omega)]
    simp [List.range'_succ]

/-- Claim C1 (confirmed against the spec-modelled retry loop): when the
server answers badNonce on the first N ≤ 5 attempts and then a non-badNonce
response, the signed request sends exactly N + 1 requests - each with the
fresh nonce of its attempt and the unchanged payload - and succeeds with
that response after exactly N retries; when the server answers badNonce on
all 6 attempts (the initial one plus the ceiling of 5 retries), the loop
sends exactly 6 requests and raises the distinguished bad-nonce failure. -/
theorem claim_C1_bad_nonce_retry (server : Nat → AcmeResponse) (nonces : Nat → String)
    (payload : String) :
    (∀ N, N ≤ MAX_BAD_NONCE_RETRIES →
      (∀ k, k < N → (server k).isBadNonce = true) → (server N).isBadNonce = false →
      signedRequest server nonces payload
        = ((List.range (N + 1)).map (fun k => (nonces k, payload)),
            .response N (server N))) ∧
    ((∀ k, k ≤ MAX_BAD_NONCE_RETRIES → (server k).isBadNonce = true) →
      signedRequest server nonces payload
        = ((List.range (MAX_BAD_NONCE_RETRIES + 1)).map (fun k => (nonces k, payload)),
            .badNonceFailure)) := by
  constructor
  · intro N hN hbad hok
    have h := signedRequestGo_success server nonces payload N hN hok N 0 (by omega)
      (fun k _ hk2 => hbad k hk2)
    rw [signedRequest, h, List.range_eq_range']
  · intro hbad
    have h := signedRequestGo_exhaust server nonces payload hbad MAX_BAD_NONCE_RETRIES 0
      (by omega)
    rw [signedRequest, h, List.range_eq_range']

/-- Witness for claim C1: a server answering badNonce on attempts 0 and 1
and success on attempt 2 takes exactly 2 retries and sends 3 requests, and
a server always answering badNonce sends 6 requests and fails with the
bad-nonce failure. -/
theorem claim_C1_witness :
    signedRequest
        (fun k => if k < 2 then { ok := false, errorType := ACME_ERROR_TYPES.BAD_NONCE }
          else { ok := true, errorType := "" })
        (fun k => toString k) "pay"
      = ((List.range 3).map (fun k => (toString k, "pay")),
          .response 2 { ok := true, errorType := "" }) ∧
    signedRequest
        (fun _ => { ok := false, errorType := ACME_ERROR_TYPES.BAD_NONCE })
        (fun k => toString k) "pay"
      = ((List.range 6).map (fun k => (toString k, "pay")), .badNonceFailure) :=
  ⟨(claim_C1_bad_nonce_retry
        (fun k => if k < 2 then { ok := false, errorType := ACME_ERROR_TYPES.BAD_NONCE }
          else { ok := true, errorType := "" })
        (fun k => toString k) "pay").1 2 (by decide)
      (fun k hk => by interval_cases k <;> decide) (by decide),
   (claim_C1_bad_nonce_retry
        (fun _ => { ok := false, errorType := ACME_ERROR_TYPES.BAD_NONCE })
        (fun k => toString k) "pay").2 (fun k _ => by decide)⟩

/-! ### Bridge lemmas: the local encoders of generateCSR.ts agree with the
shared Asn1Encoder on the inputs the CSR builder feeds them. -/

theorem concatUint8Arrays_length (xss : List (List Nat)) :
    (concatUint8Arrays xss).length = xss.flatten.length := by
  unfold concatUint8Arrays
  rw [List.length_map]

theorem concatUint8Arrays_idem (xss : List (List Nat)) :
    concatUint8Arrays [concatUint8Arrays xss] = concatUint8Arrays xss := by
  unfold concatUint8Arrays
  simp only [List.flatten_cons, List.flatten_nil, List.append_nil, List.map_map]
  exact List.map_congr_left fun b _ => Nat.mod_mod_of_dvd b dvd_rfl

theorem concat_single (v : List Nat) (hb : ∀ b ∈ v, b < 256) :
    concatUint8Arrays [v] = v := by
  have h := concatUint8Arrays_eq [v] (by simpa using hb)
  simpa using h

theorem whileGo_congr :
    ∀ n f₁ f₂, n ≤ f₁ → n ≤ f₂ →
      GenerateCSR.whileDigitsGo f₁ n = GenerateCSR.whileDigitsGo f₂ n := by
  intro n
  induction n using Nat.strong_induction_on with
  | _ n ih =>
    intro f₁ f₂ h₁ h₂
    match f₁, f₂ with
    | 0, 0 => rfl
    | 0, f₂ + 1 =>
      have hn : n = 0 := by omega
      subst hn
      simp [GenerateCSR.whileDigitsGo]
    | f₁ + 1, 0 =>
      have hn : n = 0 := by omega
      subst hn
      simp [GenerateCSR.whileDigitsGo]
    | f₁ + 1, f₂ + 1 =>
      simp only [GenerateCSR.whileDigitsGo]
      split
      · rfl
      · rename_i h
        rw [ih (n / 256) (Nat.div_lt_self (by omega) (by omega)) f₁ f₂ (by omega) (by omega)]

theorem whileDigits_eq : ∀ n, n ≠ 0 →
    GenerateCSR.whileDigits n = unsignedIntegerToUint8Array n := by
  intro n
  induction n using Nat.strong_induction_on with
  | _ n ih =>
    intro hn
    match n, hn with
    | n + 1, _ =>
      show GenerateCSR.whileDigitsGo (n + 1) (n + 1) = _
      rw [unsigned_unfold]
      simp only [GenerateCSR.whileDigitsGo]
      rw [if_neg (by omega)]
      by_cases h : n + 1 < 256
      · rw [if_pos h]
        have h0 : (n + 1) / 256 = 0 := Nat.div_eq_of_lt h
        rw [h0]
        have hz : GenerateCSR.whileDigitsGo n 0 = [] := by
          cases n <;> simp [GenerateCSR.whileDigitsGo]
        rw [hz]
        simp
      · rw [if_neg h]
        have hq : 1 ≤ (n + 1) / 256 := (Nat.le_div_iff_mul_le (by norm_num)).mpr (by omega)
        have hlt : (n + 1) / 256 < n + 1 := Nat.div_lt_self (by omega) (by omega)
        have hcongr : GenerateCSR.whileDigitsGo n ((n + 1) / 256)
            = GenerateCSR.whileDigitsGo ((n + 1) / 256) ((n + 1) / 256) :=
          whileGo_congr ((n + 1) / 256) n ((n + 1) / 256) (by omega) le_rfl
        rw [hcongr]
        congr 1
        exact ih ((n + 1) / 256) hlt (by omega)

theorem encodeLength_eq (n : Nat) (hn : n < 2 ^ 31) :
    GenerateCSR.encodeLength n = Asn1Encoder.length n := by
  rw [length_shape n hn]
  unfold GenerateCSR.encodeLength GenerateCSR.uint8ArrayFrom
  by_cases h : n < 128
  · rw [if_pos h, if_pos h]
    simp [Nat.mod_eq_of_lt (by omega : n < 256)]
  · rw [if_neg h, if_neg h]
    rw [whileDigits_eq n (by omega)]
    have hlen4 : (unsignedIntegerToUint8Array n).length ≤ 4 :=
      unsigned_length_le n 4 (by omega) (by rw [pow256_4]; omega)
    have hlor : 128 ||| (unsignedIntegerToUint8Array n).length
        = 128 + (unsignedIntegerToUint8Array n).length := lor128_of_lt _ (by omega)
    rw [List.map_cons, hlor]
    congr 1
    · exact Nat.mod_eq_of_lt (by omega)
    · exact (List.map_congr_left fun b hb =>
        Nat.mod_eq_of_lt (mem_unsigned_lt n b hb)).trans (List.map_id _)

theorem gcsr_custom_eq (t : Nat) (v : List Nat) (hv : v.length < 2 ^ 31) :
    concatUint8Arrays [[t], GenerateCSR.encodeLength v.length, v] = Asn1Encoder.custom t v := by
  rw [encodeLength_eq v.length hv]
  rfl

theorem encodeUTF8String_eq (s : String) (h : (textEncoderEncode s).length < 2 ^ 31) :
    GenerateCSR.encodeUTF8String s = Asn1Encoder.custom 0x0C (textEncoderEncode s) := by
  show concatUint8Arrays
    [[0x0C], GenerateCSR.encodeLength (textEncoderEncode s).length, textEncoderEncode s] = _
  exact gcsr_custom_eq 0x0C _ h

theorem gcsr_encodeSequence_eq (values : List (List Nat))
    (h : values.flatten.length < 2 ^ 31) :
    GenerateCSR.encodeSequence values = Asn1Encoder.sequence values := by
  have h2 : (concatUint8Arrays values).length < 2 ^ 31 := by
    rw [concatUint8Arrays_length]
    exact h
  show concatUint8Arrays [[0x30],
    GenerateCSR.encodeLength (concatUint8Arrays values).length, concatUint8Arrays values] = _
  exact gcsr_custom_eq 0x30 _ h2

theorem gcsr_encodeSet_eq (v : List Nat) (h : v.length < 2 ^ 31) :
    GenerateCSR.encodeSet v = Asn1Encoder.custom 0x31 v :=
  gcsr_custom_eq 0x31 v h

theorem gcsr_encodeOctetString_eq (v : List Nat) (h : v.length < 2 ^ 31) :
    GenerateCSR.encodeOctetString v = Asn1Encoder.custom 0x04 v :=
  gcsr_custom_eq 0x04 v h

theorem gcsr_encodeBitString_eq (bs : List Nat) (h : bs.length + 1 < 2 ^ 31) :
    GenerateCSR.encodeBitString bs = Asn1Encoder.custom 0x03 (0 :: bs) := by
  have hl : (0 :: bs).length < 2 ^ 31 := by
    simp
    omega
  have h2 := gcsr_custom_eq 0x03 (0 :: bs) hl
  exact h2

theorem gcsr_encodeSanDns_eq (s : String) (h : (textEncoderEncode s).length < 2 ^ 31) :
    GenerateCSR.encodeSanDns s = Asn1Encoder.custom 0x82 (textEncoderEncode s) := by
  show concatUint8Arrays
    [[0x82], GenerateCSR.encodeLength (textEncoderEncode s).length, textEncoderEncode s] = _
  exact gcsr_custom_eq 0x82 _ h

theorem attributesBlock_eq (domains : List String)
    (h : (GenerateCSR.extensionRequestBlock domains).length < 2 ^ 31) :
    GenerateCSR.attributesBlock domains
      = Asn1Encoder.custom 0xA0 (GenerateCSR.extensionRequestBlock domains) :=
  gcsr_custom_eq 0xA0 _ h

theorem length_length_le (n : Nat) (hn : n < 2 ^ 31) : (Asn1Encoder.length n).length ≤ 5 := by
  rw [length_shape n hn]
  split
  · simp
  · have h4 := unsigned_length_le n 4 (by omega) (by rw [pow256_4]; omega)
    simp
    omega

theorem custom_length_le (t : Nat) (v : List Nat) (hv : v.length < 2 ^ 31) :
    (Asn1Encoder.custom t v).length ≤ v.length + 6 := by
  unfold Asn1Encoder.custom
  rw [concatUint8Arrays_length]
  have h5 := length_length_le v.length hv
  simp only [List.flatten_cons, List.flatten_nil, List.append_nil, List.length_append,
    List.length_singleton]
  omega

theorem sequence_length_le (values : List (List Nat)) (h : values.flatten.length < 2 ^ 31) :
    (Asn1Encoder.sequence values).length ≤ values.flatten.length + 6 := by
  unfold Asn1Encoder.sequence
  have h2 : (concatUint8Arrays values).length < 2 ^ 31 := by
    rw [concatUint8Arrays_length]
    exact h
  have h3 := custom_length_le 0x30 (concatUint8Arrays values) h2
  rw [concatUint8Arrays_length] at h3
  exact h3

theorem WfTlv_custom (t : Nat) (v : List Nat) (ht : t < 256) (hb : ∀ b ∈ v, b < 256)
    (hv : v.length < 2 ^ 31) : WfTlv (Asn1Encoder.custom t v) :=
  ⟨t, v, ht, hb, hv, rfl⟩

theorem WfTlv_sequence (values : List (List Nat)) (h : values.flatten.length < 2 ^ 31) :
    WfTlv (Asn1Encoder.sequence values) :=
  ⟨0x30, concatUint8Arrays values, by norm_num, mem_concatUint8Arrays_lt values, by
    rw [concatUint8Arrays_length]
    exact h, rfl⟩

theorem flatten_length_le (l : List (List Nat)) (c : Nat) (h : ∀ p ∈ l, p.length ≤ c) :
    l.flatten.length ≤ l.length * c := by
  induction l with
  | nil => simp
  | cons p ps ih =>
    simp only [List.flatten_cons, List.length_append, List.length_cons]
    have h1 := h p (List.mem_cons_self p ps)
    have h2 := ih (fun q hq => h q (List.mem_cons_of_mem _ hq))
    have h3 : (ps.length + 1) * c = ps.length * c + c := by ring
    omega

theorem decodeTLV_custom_nil (t : Nat) (v : List Nat) (ht : t < 256)
    (hv : v.length < 2 ^ 31) (hb : ∀ b ∈ v, b < 256) :
    decodeTagLengthValue (Asn1Encoder.custom t v)
      = .ok ⟨t, (v.length : Int), v, Asn1Encoder.custom t v⟩ := by
  have h := decodeTagLengthValue_custom t v [] ht hv hb
  rwa [List.append_nil] at h

theorem versionTlv_custom : GenerateCSR.versionTlv = Asn1Encoder.custom 2 [0] := by rfl

theorem cnOidTlv_custom : GenerateCSR.cnOidTlv = Asn1Encoder.custom 6 [85, 4, 3] := by rfl

theorem sanOidTlv_custom : GenerateCSR.sanOidTlv = Asn1Encoder.custom 6 [85, 29, 17] := by rfl

theorem ecPublicKeyOidTlv_custom :
    GenerateCSR.ecPublicKeyOidTlv = Asn1Encoder.custom 6 [42, 134, 72, 206, 61, 2, 1] := by rfl

theorem prime256v1OidTlv_custom :
    GenerateCSR.prime256v1OidTlv = Asn1Encoder.custom 6 [42, 134, 72, 206, 61, 3, 1, 7] := by rfl

theorem extensionRequestOidTlv_custom :
    GenerateCSR.extensionRequestOidTlv
      = Asn1Encoder.custom 6 [42, 134, 72, 134, 247, 13, 1, 9, 14] := by rfl

theorem mem_encodeSequence_lt (values : List (List Nat)) :
    ∀ b ∈ GenerateCSR.encodeSequence values, b < 256 := fun b hb =>
  mem_concatUint8Arrays_lt [[0x30],
    GenerateCSR.encodeLength (concatUint8Arrays values).length, concatUint8Arrays values] b hb

theorem mem_encodeSet_lt (v : List Nat) : ∀ b ∈ GenerateCSR.encodeSet v, b < 256 := fun b hb =>
  mem_concatUint8Arrays_lt [[0x31], GenerateCSR.encodeLength v.length, v] b hb


/-- Claim C8 (confirmed with size-bound hypotheses): the CSR info builder
fails on an empty domain list with the "no domain given to generate csr"
error; and for every non-empty domain list (with each domain's UTF-8
encoding at most 1000 bytes, at most 101 domains, and a raw public key of
at most 2000 bytes below 256) the produced DER decodes - through the
repository's own decoders - to a CertificationRequestInfo with version
INTEGER(0), a subject whose single common-name value is the UTF-8 bytes of
the first domain, and a SAN extension whose inner SEQUENCE holds exactly
one context-2 tagged entry per requested domain, in request order, each
carrying the requested name's UTF-8 bytes with any wildcard prefix kept
as requested. -/
theorem claim_C8_generate_csr (mainDomain : String) (ds : List String)
    (publicKeyRaw : List Nat) :
    (GenerateCSR.generateCertificationRequestInfoSequence [] publicKeyRaw
      = .error "no domain given to generate csr") ∧
    ((textEncoderEncode mainDomain).length ≤ 1000 →
     (∀ d ∈ ds, (textEncoderEncode d).length ≤ 1000) →
     ds.length ≤ 100 →
     publicKeyRaw.length ≤ 2000 →
     (∀ b ∈ publicKeyRaw, b < 256) →
     CsrDecodesCorrectly mainDomain ds publicKeyRaw) := by
  refine ⟨rfl, ?_⟩
  intro hmd hds hn hpk hpkb
  have hdall : ∀ d ∈ mainDomain :: ds, (textEncoderEncode d).length ≤ 1000 := by
    intro d hd
    rcases List.mem_cons.mp hd with h | h
    · subst h
      exact hmd
    · exact hds d h
  have hcount : (mainDomain :: ds).length ≤ 101 := by
    simp only [List.length_cons]
    omega
  have hv3 : GenerateCSR.versionTlv.length = 3 := rfl
  have hcn5 : GenerateCSR.cnOidTlv.length = 5 := rfl
  have hsan5 : GenerateCSR.sanOidTlv.length = 5 := rfl
  have hext11 : GenerateCSR.extensionRequestOidTlv.length = 11 := rfl
  -- SAN entries
  have hsanEq : ∀ d ∈ mainDomain :: ds,
      GenerateCSR.encodeSanDns d = Asn1Encoder.custom 0x82 (textEncoderEncode d) := by
    intro d hd
    exact gcsr_encodeSanDns_eq d (by have := hdall d hd; omega)
  have hsanLen : ∀ d ∈ mainDomain :: ds, (GenerateCSR.encodeSanDns d).length ≤ 1006 := by
    intro d hd
    rw [hsanEq d hd]
    have h1 := custom_length_le 0x82 (textEncoderEncode d) (by have := hdall d hd; omega)
    have h2 := hdall d hd
    omega
  have hsanWf : ∀ p ∈ (List.map GenerateCSR.encodeSanDns (mainDomain :: ds)), WfTlv p := by
    intro p hp
    rw [List.mem_map] at hp
    obtain ⟨d, hd, rfl⟩ := hp
    rw [hsanEq d hd]
    exact WfTlv_custom 0x82 (textEncoderEncode d) (by norm_num)
      (mem_textEncoderEncode_lt d) (by have := hdall d hd; omega)
  have hsansFlat : ((List.map GenerateCSR.encodeSanDns (mainDomain :: ds))).flatten.length ≤ 101606 := by
    have h1 := flatten_length_le (List.map GenerateCSR.encodeSanDns (mainDomain :: ds)) 1006 (by
      intro p hp
      rw [List.mem_map] at hp
      obtain ⟨d, hd, rfl⟩ := hp
      exact hsanLen d hd)
    have h2 : ((List.map GenerateCSR.encodeSanDns (mainDomain :: ds))).length ≤ 101 := by
      rw [List.length_map]
      exact hcount
    have h3 : ((List.map GenerateCSR.encodeSanDns (mainDomain :: ds))).length * 1006 ≤ 101 * 1006 := Nat.mul_le_mul_right 1006 h2
    omega
  -- inner SAN sequence
  have hISeqEq : (GenerateCSR.encodeSequence (List.map GenerateCSR.encodeSanDns (mainDomain :: ds))) = Asn1Encoder.sequence (List.map GenerateCSR.encodeSanDns (mainDomain :: ds)) :=
    gcsr_encodeSequence_eq (List.map GenerateCSR.encodeSanDns (mainDomain :: ds)) (by omega)
  have g15 : decodeSequence (GenerateCSR.encodeSequence (List.map GenerateCSR.encodeSanDns (mainDomain :: ds))) = .ok (List.map GenerateCSR.encodeSanDns (mainDomain :: ds)) := by
    rw [hISeqEq]
    exact decodeSequence_parts (List.map GenerateCSR.encodeSanDns (mainDomain :: ds)) hsanWf (by omega)
  have hISeqLen : ((GenerateCSR.encodeSequence (List.map GenerateCSR.encodeSanDns (mainDomain :: ds)))).length ≤ 101612 := by
    rw [hISeqEq]
    have h1 := sequence_length_le (List.map GenerateCSR.encodeSanDns (mainDomain :: ds)) (by omega)
    omega
  have hISeqBytes : ∀ b ∈ (GenerateCSR.encodeSequence (List.map GenerateCSR.encodeSanDns (mainDomain :: ds))), b < 256 := mem_encodeSequence_lt (List.map GenerateCSR.encodeSanDns (mainDomain :: ds))
  have hXeq : (concatUint8Arrays [(GenerateCSR.encodeSequence (List.map GenerateCSR.encodeSanDns (mainDomain :: ds)))]) = (GenerateCSR.encodeSequence (List.map GenerateCSR.encodeSanDns (mainDomain :: ds))) := concat_single (GenerateCSR.encodeSequence (List.map GenerateCSR.encodeSanDns (mainDomain :: ds))) hISeqBytes
  -- octet string around the SAN inner sequence
  have g14 : (decodeTagLengthValue (GenerateCSR.encodeOctetString (concatUint8Arrays [(GenerateCSR.encodeSequence (List.map GenerateCSR.encodeSanDns (mainDomain :: ds)))]))).map Tlv.value = .ok (GenerateCSR.encodeSequence (List.map GenerateCSR.encodeSanDns (mainDomain :: ds))) := by
    rw [hXeq, gcsr_encodeOctetString_eq (GenerateCSR.encodeSequence (List.map GenerateCSR.encodeSanDns (mainDomain :: ds))) (by omega),
      decodeTLV_custom_nil 0x04 (GenerateCSR.encodeSequence (List.map GenerateCSR.encodeSanDns (mainDomain :: ds))) (by norm_num) (by omega) hISeqBytes]
    rfl
  have hOctLen : ((GenerateCSR.encodeOctetString (concatUint8Arrays [(GenerateCSR.encodeSequence (List.map GenerateCSR.encodeSanDns (mainDomain :: ds)))]))).length ≤ 101618 := by
    rw [hXeq, gcsr_encodeOctetString_eq (GenerateCSR.encodeSequence (List.map GenerateCSR.encodeSanDns (mainDomain :: ds))) (by omega)]
    have h1 := custom_length_le 0x04 (GenerateCSR.encodeSequence (List.map GenerateCSR.encodeSanDns (mainDomain :: ds))) (by omega)
    omega
  have hOwf : WfTlv (GenerateCSR.encodeOctetString (concatUint8Arrays [(GenerateCSR.encodeSequence (List.map GenerateCSR.encodeSanDns (mainDomain :: ds)))])) := by
    rw [hXeq, gcsr_encodeOctetString_eq (GenerateCSR.encodeSequence (List.map GenerateCSR.encodeSanDns (mainDomain :: ds))) (by omega)]
    exact WfTlv_custom 0x04 (GenerateCSR.encodeSequence (List.map GenerateCSR.encodeSanDns (mainDomain :: ds))) (by norm_num) hISeqBytes (by omega)
  -- SAN extension
  have hYLen : ((concatUint8Arrays [GenerateCSR.sanOidTlv, (GenerateCSR.encodeOctetString (concatUint8Arrays [(GenerateCSR.encodeSequence (List.map GenerateCSR.encodeSanDns (mainDomain :: ds)))]))])).length ≤ 101623 := by
    rw [concatUint8Arrays_length]
    simp only [List.flatten_cons, List.flatten_nil, List.append_nil, List.length_append]
    omega
  have hflYb : ([(concatUint8Arrays [GenerateCSR.sanOidTlv, (GenerateCSR.encodeOctetString (concatUint8Arrays [(GenerateCSR.encodeSequence (List.map GenerateCSR.encodeSanDns (mainDomain :: ds)))]))])] : List (List Nat)).flatten.length ≤ 101623 := by
    simp only [List.flatten_cons, List.flatten_nil, List.append_nil]
    omega
  have hflSanO : ([GenerateCSR.sanOidTlv, (GenerateCSR.encodeOctetString (concatUint8Arrays [(GenerateCSR.encodeSequence (List.map GenerateCSR.encodeSanDns (mainDomain :: ds)))]))] : List (List Nat)).flatten.length
      ≤ 101623 := by
    simp only [List.flatten_cons, List.flatten_nil, List.append_nil, List.length_append]
    omega
  have hd1 : (GenerateCSR.sanExtension (mainDomain :: ds)) = GenerateCSR.encodeSequence [(concatUint8Arrays [GenerateCSR.sanOidTlv, (GenerateCSR.encodeOctetString (concatUint8Arrays [(GenerateCSR.encodeSequence (List.map GenerateCSR.encodeSanDns (mainDomain :: ds)))]))])] := rfl
  have hseqYfold : Asn1Encoder.sequence [(concatUint8Arrays [GenerateCSR.sanOidTlv, (GenerateCSR.encodeOctetString (concatUint8Arrays [(GenerateCSR.encodeSequence (List.map GenerateCSR.encodeSanDns (mainDomain :: ds)))]))])]
      = Asn1Encoder.sequence [GenerateCSR.sanOidTlv, (GenerateCSR.encodeOctetString (concatUint8Arrays [(GenerateCSR.encodeSequence (List.map GenerateCSR.encodeSanDns (mainDomain :: ds)))]))] := by
    unfold Asn1Encoder.sequence
    rw [concatUint8Arrays_idem]
  have g13 : decodeSequence (GenerateCSR.sanExtension (mainDomain :: ds)) = .ok [GenerateCSR.sanOidTlv, (GenerateCSR.encodeOctetString (concatUint8Arrays [(GenerateCSR.encodeSequence (List.map GenerateCSR.encodeSanDns (mainDomain :: ds)))]))] := by
    rw [hd1, gcsr_encodeSequence_eq [(concatUint8Arrays [GenerateCSR.sanOidTlv, (GenerateCSR.encodeOctetString (concatUint8Arrays [(GenerateCSR.encodeSequence (List.map GenerateCSR.encodeSanDns (mainDomain :: ds)))]))])] (by omega), hseqYfold]
    refine decodeSequence_parts [GenerateCSR.sanOidTlv, (GenerateCSR.encodeOctetString (concatUint8Arrays [(GenerateCSR.encodeSequence (List.map GenerateCSR.encodeSanDns (mainDomain :: ds)))]))] ?_ (by omega)
    intro p hp
    simp only [List.mem_cons, List.not_mem_nil, or_false] at hp
    rcases hp with rfl | rfl
    · rw [sanOidTlv_custom]
      exact WfTlv_custom 6 [85, 29, 17] (by norm_num) (by decide) (by norm_num)
    · exact hOwf
  have hSELen : ((GenerateCSR.sanExtension (mainDomain :: ds))).length ≤ 101629 := by
    rw [hd1, gcsr_encodeSequence_eq [(concatUint8Arrays [GenerateCSR.sanOidTlv, (GenerateCSR.encodeOctetString (concatUint8Arrays [(GenerateCSR.encodeSequence (List.map GenerateCSR.encodeSanDns (mainDomain :: ds)))]))])] (by omega)]
    have h1 := sequence_length_le [(concatUint8Arrays [GenerateCSR.sanOidTlv, (GenerateCSR.encodeOctetString (concatUint8Arrays [(GenerateCSR.encodeSequence (List.map GenerateCSR.encodeSanDns (mainDomain :: ds)))]))])] (by omega)
    omega
  have hSEWf : WfTlv (GenerateCSR.sanExtension (mainDomain :: ds)) := by
    rw [hd1, gcsr_encodeSequence_eq [(concatUint8Arrays [GenerateCSR.sanOidTlv, (GenerateCSR.encodeOctetString (concatUint8Arrays [(GenerateCSR.encodeSequence (List.map GenerateCSR.encodeSanDns (mainDomain :: ds)))]))])] (by omega)]
    exact WfTlv_sequence [(concatUint8Arrays [GenerateCSR.sanOidTlv, (GenerateCSR.encodeOctetString (concatUint8Arrays [(GenerateCSR.encodeSequence (List.map GenerateCSR.encodeSanDns (mainDomain :: ds)))]))])] (by omega)
  -- SEQUENCE around the SAN extension
  have hflSE : ([(GenerateCSR.sanExtension (mainDomain :: ds))] : List (List Nat)).flatten.length ≤ 101629 := by
    simp only [List.flatten_cons, List.flatten_nil, List.append_nil]
    omega
  have g12 : decodeSequence (GenerateCSR.encodeSequence [(GenerateCSR.sanExtension (mainDomain :: ds))]) = .ok [(GenerateCSR.sanExtension (mainDomain :: ds))] := by
    rw [gcsr_encodeSequence_eq [(GenerateCSR.sanExtension (mainDomain :: ds))] (by omega)]
    refine decodeSequence_parts [(GenerateCSR.sanExtension (mainDomain :: ds))] ?_ (by omega)
    intro p hp
    simp only [List.mem_singleton] at hp
    subst hp
    exact hSEWf
  have hSEQ2Len : ((GenerateCSR.encodeSequence [(GenerateCSR.sanExtension (mainDomain :: ds))])).length ≤ 101635 := by
    rw [gcsr_encodeSequence_eq [(GenerateCSR.sanExtension (mainDomain :: ds))] (by omega)]
    have h1 := sequence_length_le [(GenerateCSR.sanExtension (mainDomain :: ds))] (by omega)
    omega
  have hSEQ2Bytes : ∀ b ∈ (GenerateCSR.encodeSequence [(GenerateCSR.sanExtension (mainDomain :: ds))]), b < 256 := mem_encodeSequence_lt [(GenerateCSR.sanExtension (mainDomain :: ds))]
  -- SET around it
  have g11 : (decodeTagLengthValue (GenerateCSR.encodeSet (GenerateCSR.encodeSequence [(GenerateCSR.sanExtension (mainDomain :: ds))]))).map Tlv.value = .ok (GenerateCSR.encodeSequence [(GenerateCSR.sanExtension (mainDomain :: ds))]) := by
    rw [gcsr_encodeSet_eq (GenerateCSR.encodeSequence [(GenerateCSR.sanExtension (mainDomain :: ds))]) (by omega),
      decodeTLV_custom_nil 0x31 (GenerateCSR.encodeSequence [(GenerateCSR.sanExtension (mainDomain :: ds))]) (by norm_num) (by omega) hSEQ2Bytes]
    rfl
  have hSET2Len : ((GenerateCSR.encodeSet (GenerateCSR.encodeSequence [(GenerateCSR.sanExtension (mainDomain :: ds))]))).length ≤ 101641 := by
    rw [gcsr_encodeSet_eq (GenerateCSR.encodeSequence [(GenerateCSR.sanExtension (mainDomain :: ds))]) (by omega)]
    have h1 := custom_length_le 0x31 (GenerateCSR.encodeSequence [(GenerateCSR.sanExtension (mainDomain :: ds))]) (by omega)
    omega
  have hSET2Wf : WfTlv (GenerateCSR.encodeSet (GenerateCSR.encodeSequence [(GenerateCSR.sanExtension (mainDomain :: ds))])) := by
    rw [gcsr_encodeSet_eq (GenerateCSR.encodeSequence [(GenerateCSR.sanExtension (mainDomain :: ds))]) (by omega)]
    exact WfTlv_custom 0x31 (GenerateCSR.encodeSequence [(GenerateCSR.sanExtension (mainDomain :: ds))]) (by norm_num) hSEQ2Bytes (by omega)
  -- extensionRequest block
  have hd2 : (GenerateCSR.extensionRequestBlock (mainDomain :: ds)) = GenerateCSR.encodeSequence
      [GenerateCSR.extensionRequestOidTlv, (GenerateCSR.encodeSet (GenerateCSR.encodeSequence [(GenerateCSR.sanExtension (mainDomain :: ds))]))] := rfl
  have hflERB : ([GenerateCSR.extensionRequestOidTlv, (GenerateCSR.encodeSet (GenerateCSR.encodeSequence [(GenerateCSR.sanExtension (mainDomain :: ds))]))] :
      List (List Nat)).flatten.length ≤ 101652 := by
    simp only [List.flatten_cons, List.flatten_nil, List.append_nil, List.length_append]
    omega
  have g10 : decodeSequence (GenerateCSR.extensionRequestBlock (mainDomain :: ds))
      = .ok [GenerateCSR.extensionRequestOidTlv, (GenerateCSR.encodeSet (GenerateCSR.encodeSequence [(GenerateCSR.sanExtension (mainDomain :: ds))]))] := by
    rw [hd2, gcsr_encodeSequence_eq [GenerateCSR.extensionRequestOidTlv, (GenerateCSR.encodeSet (GenerateCSR.encodeSequence [(GenerateCSR.sanExtension (mainDomain :: ds))]))] (by omega)]
    refine decodeSequence_parts [GenerateCSR.extensionRequestOidTlv, (GenerateCSR.encodeSet (GenerateCSR.encodeSequence [(GenerateCSR.sanExtension (mainDomain :: ds))]))] ?_ (by omega)
    intro p hp
    simp only [List.mem_cons, List.not_mem_nil, or_false] at hp
    rcases hp with rfl | rfl
    · rw [extensionRequestOidTlv_custom]
      exact WfTlv_custom 6 [42, 134, 72, 134, 247, 13, 1, 9, 14] (by norm_num)
        (by decide) (by norm_num)
    · exact hSET2Wf
  have hERBLen : ((GenerateCSR.extensionRequestBlock (mainDomain :: ds))).length ≤ 101658 := by
    rw [hd2, gcsr_encodeSequence_eq [GenerateCSR.extensionRequestOidTlv, (GenerateCSR.encodeSet (GenerateCSR.encodeSequence [(GenerateCSR.sanExtension (mainDomain :: ds))]))] (by omega)]
    have h1 := sequence_length_le [GenerateCSR.extensionRequestOidTlv, (GenerateCSR.encodeSet (GenerateCSR.encodeSequence [(GenerateCSR.sanExtension (mainDomain :: ds))]))] (by omega)
    omega
  have hERBBytes : ∀ b ∈ (GenerateCSR.extensionRequestBlock (mainDomain :: ds)), b < 256 := by
    rw [hd2]
    exact mem_encodeSequence_lt [GenerateCSR.extensionRequestOidTlv, (GenerateCSR.encodeSet (GenerateCSR.encodeSequence [(GenerateCSR.sanExtension (mainDomain :: ds))]))]
  -- attributes block
  have g9 : decodeTagLengthValue (GenerateCSR.attributesBlock (mainDomain :: ds))
      = .ok ⟨0xA0, (((GenerateCSR.extensionRequestBlock (mainDomain :: ds))).length : Int), (GenerateCSR.extensionRequestBlock (mainDomain :: ds)), (GenerateCSR.attributesBlock (mainDomain :: ds))⟩ := by
    rw [attributesBlock_eq (mainDomain :: ds) (by omega)]
    exact decodeTLV_custom_nil 0xA0 (GenerateCSR.extensionRequestBlock (mainDomain :: ds)) (by norm_num) (by omega) hERBBytes
  have hABLen : ((GenerateCSR.attributesBlock (mainDomain :: ds))).length ≤ 101664 := by
    rw [attributesBlock_eq (mainDomain :: ds) (by omega)]
    have h1 := custom_length_le 0xA0 (GenerateCSR.extensionRequestBlock (mainDomain :: ds)) (by omega)
    omega
  have hABWf : WfTlv (GenerateCSR.attributesBlock (mainDomain :: ds)) := by
    rw [attributesBlock_eq (mainDomain :: ds) (by omega)]
    exact WfTlv_custom 0xA0 (GenerateCSR.extensionRequestBlock (mainDomain :: ds)) (by norm_num) hERBBytes (by omega)
  -- subject side
  have hU8Eq : (GenerateCSR.encodeUTF8String mainDomain) = Asn1Encoder.custom 0x0C (textEncoderEncode mainDomain) :=
    encodeUTF8String_eq mainDomain (by omega)
  have g8 : decodeTagLengthValue (GenerateCSR.encodeUTF8String mainDomain)
      = .ok ⟨0x0C, (((textEncoderEncode mainDomain)).length : Int), (textEncoderEncode mainDomain), (GenerateCSR.encodeUTF8String mainDomain)⟩ := by
    rw [hU8Eq]
    exact decodeTLV_custom_nil 0x0C (textEncoderEncode mainDomain) (by norm_num) (by omega)
      (mem_textEncoderEncode_lt mainDomain)
  have hU8Len : ((GenerateCSR.encodeUTF8String mainDomain)).length ≤ 1006 := by
    rw [hU8Eq]
    have h1 := custom_length_le 0x0C (textEncoderEncode mainDomain) (by omega)
    omega
  have hU8Wf : WfTlv (GenerateCSR.encodeUTF8String mainDomain) := by
    rw [hU8Eq]
    exact WfTlv_custom 0x0C (textEncoderEncode mainDomain) (by norm_num) (mem_textEncoderEncode_lt mainDomain)
      (by omega)
  have hflATV : ([GenerateCSR.cnOidTlv, (GenerateCSR.encodeUTF8String mainDomain)] : List (List Nat)).flatten.length ≤ 1011 := by
    simp only [List.flatten_cons, List.flatten_nil, List.append_nil, List.length_append]
    omega
  have g7 : decodeSequence (GenerateCSR.encodeSequence [GenerateCSR.cnOidTlv, (GenerateCSR.encodeUTF8String mainDomain)]) = .ok [GenerateCSR.cnOidTlv, (GenerateCSR.encodeUTF8String mainDomain)] := by
    rw [gcsr_encodeSequence_eq [GenerateCSR.cnOidTlv, (GenerateCSR.encodeUTF8String mainDomain)] (by omega)]
    refine decodeSequence_parts [GenerateCSR.cnOidTlv, (GenerateCSR.encodeUTF8String mainDomain)] ?_ (by omega)
    intro p hp
    simp only [List.mem_cons, List.not_mem_nil, or_false] at hp
    rcases hp with rfl | rfl
    · rw [cnOidTlv_custom]
      exact WfTlv_custom 6 [85, 4, 3] (by norm_num) (by decide) (by norm_num)
    · exact hU8Wf
  have hATVLen : ((GenerateCSR.encodeSequence [GenerateCSR.cnOidTlv, (GenerateCSR.encodeUTF8String mainDomain)])).length ≤ 1017 := by
    rw [gcsr_encodeSequence_eq [GenerateCSR.cnOidTlv, (GenerateCSR.encodeUTF8String mainDomain)] (by omega)]
    have h1 := sequence_length_le [GenerateCSR.cnOidTlv, (GenerateCSR.encodeUTF8String mainDomain)] (by omega)
    omega
  have hATVBytes : ∀ b ∈ (GenerateCSR.encodeSequence [GenerateCSR.cnOidTlv, (GenerateCSR.encodeUTF8String mainDomain)]), b < 256 := mem_encodeSequence_lt [GenerateCSR.cnOidTlv, (GenerateCSR.encodeUTF8String mainDomain)]
  have g5 : (decodeTagLengthValue (GenerateCSR.encodeSet (GenerateCSR.encodeSequence [GenerateCSR.cnOidTlv, (GenerateCSR.encodeUTF8String mainDomain)]))).map Tlv.tag = .ok 0x31 := by
    rw [gcsr_encodeSet_eq (GenerateCSR.encodeSequence [GenerateCSR.cnOidTlv, (GenerateCSR.encodeUTF8String mainDomain)]) (by omega),
      decodeTLV_custom_nil 0x31 (GenerateCSR.encodeSequence [GenerateCSR.cnOidTlv, (GenerateCSR.encodeUTF8String mainDomain)]) (by norm_num) (by omega) hATVBytes]
    rfl
  have g6 : (decodeTagLengthValue (GenerateCSR.encodeSet (GenerateCSR.encodeSequence [GenerateCSR.cnOidTlv, (GenerateCSR.encodeUTF8String mainDomain)]))).map Tlv.value = .ok (GenerateCSR.encodeSequence [GenerateCSR.cnOidTlv, (GenerateCSR.encodeUTF8String mainDomain)]) := by
    rw [gcsr_encodeSet_eq (GenerateCSR.encodeSequence [GenerateCSR.cnOidTlv, (GenerateCSR.encodeUTF8String mainDomain)]) (by omega),
      decodeTLV_custom_nil 0x31 (GenerateCSR.encodeSequence [GenerateCSR.cnOidTlv, (GenerateCSR.encodeUTF8String mainDomain)]) (by norm_num) (by omega) hATVBytes]
    rfl
  have hSET1Len : ((GenerateCSR.encodeSet (GenerateCSR.encodeSequence [GenerateCSR.cnOidTlv, (GenerateCSR.encodeUTF8String mainDomain)]))).length ≤ 1023 := by
    rw [gcsr_encodeSet_eq (GenerateCSR.encodeSequence [GenerateCSR.cnOidTlv, (GenerateCSR.encodeUTF8String mainDomain)]) (by omega)]
    have h1 := custom_length_le 0x31 (GenerateCSR.encodeSequence [GenerateCSR.cnOidTlv, (GenerateCSR.encodeUTF8String mainDomain)]) (by omega)
    omega
  have hSET1Wf : WfTlv (GenerateCSR.encodeSet (GenerateCSR.encodeSequence [GenerateCSR.cnOidTlv, (GenerateCSR.encodeUTF8String mainDomain)])) := by
    rw [gcsr_encodeSet_eq (GenerateCSR.encodeSequence [GenerateCSR.cnOidTlv, (GenerateCSR.encodeUTF8String mainDomain)]) (by omega)]
    exact WfTlv_custom 0x31 (GenerateCSR.encodeSequence [GenerateCSR.cnOidTlv, (GenerateCSR.encodeUTF8String mainDomain)]) (by norm_num) hATVBytes (by omega)
  have hd3 : (GenerateCSR.subjectSeq mainDomain) = GenerateCSR.encodeSequence [(GenerateCSR.encodeSet (GenerateCSR.encodeSequence [GenerateCSR.cnOidTlv, (GenerateCSR.encodeUTF8String mainDomain)]))] := rfl
  have hflSUBJ : ([(GenerateCSR.encodeSet (GenerateCSR.encodeSequence [GenerateCSR.cnOidTlv, (GenerateCSR.encodeUTF8String mainDomain)]))] : List (List Nat)).flatten.length ≤ 1023 := by
    simp only [List.flatten_cons, List.flatten_nil, List.append_nil]
    omega
  have g4 : decodeSequence (GenerateCSR.subjectSeq mainDomain) = .ok [(GenerateCSR.encodeSet (GenerateCSR.encodeSequence [GenerateCSR.cnOidTlv, (GenerateCSR.encodeUTF8String mainDomain)]))] := by
    rw [hd3, gcsr_encodeSequence_eq [(GenerateCSR.encodeSet (GenerateCSR.encodeSequence [GenerateCSR.cnOidTlv, (GenerateCSR.encodeUTF8String mainDomain)]))] (by omega)]
    refine decodeSequence_parts [(GenerateCSR.encodeSet (GenerateCSR.encodeSequence [GenerateCSR.cnOidTlv, (GenerateCSR.encodeUTF8String mainDomain)]))] ?_ (by omega)
    intro p hp
    simp only [List.mem_singleton] at hp
    subst hp
    exact hSET1Wf
  have hSUBJLen : ((GenerateCSR.subjectSeq mainDomain)).length ≤ 1029 := by
    rw [hd3, gcsr_encodeSequence_eq [(GenerateCSR.encodeSet (GenerateCSR.encodeSequence [GenerateCSR.cnOidTlv, (GenerateCSR.encodeUTF8String mainDomain)]))] (by omega)]
    have h1 := sequence_length_le [(GenerateCSR.encodeSet (GenerateCSR.encodeSequence [GenerateCSR.cnOidTlv, (GenerateCSR.encodeUTF8String mainDomain)]))] (by omega)
    omega
  have hSUBJWf : WfTlv (GenerateCSR.subjectSeq mainDomain) := by
    rw [hd3, gcsr_encodeSequence_eq [(GenerateCSR.encodeSet (GenerateCSR.encodeSequence [GenerateCSR.cnOidTlv, (GenerateCSR.encodeUTF8String mainDomain)]))] (by omega)]
    exact WfTlv_sequence [(GenerateCSR.encodeSet (GenerateCSR.encodeSequence [GenerateCSR.cnOidTlv, (GenerateCSR.encodeUTF8String mainDomain)]))] (by omega)
  -- SubjectPublicKeyInfo
  have hflALG : ([GenerateCSR.ecPublicKeyOidTlv, GenerateCSR.prime256v1OidTlv] :
      List (List Nat)).flatten.length = 19 := rfl
  have hALGEq : (GenerateCSR.encodeSequence [GenerateCSR.ecPublicKeyOidTlv, GenerateCSR.prime256v1OidTlv]) = Asn1Encoder.sequence
      [GenerateCSR.ecPublicKeyOidTlv, GenerateCSR.prime256v1OidTlv] :=
    gcsr_encodeSequence_eq [GenerateCSR.ecPublicKeyOidTlv, GenerateCSR.prime256v1OidTlv]
      (by omega)
  have hALGLen : ((GenerateCSR.encodeSequence [GenerateCSR.ecPublicKeyOidTlv, GenerateCSR.prime256v1OidTlv])).length ≤ 25 := by
    rw [hALGEq]
    have h1 := sequence_length_le
      [GenerateCSR.ecPublicKeyOidTlv, GenerateCSR.prime256v1OidTlv] (by omega)
    omega
  have hALGWf : WfTlv (GenerateCSR.encodeSequence [GenerateCSR.ecPublicKeyOidTlv, GenerateCSR.prime256v1OidTlv]) := by
    rw [hALGEq]
    exact WfTlv_sequence [GenerateCSR.ecPublicKeyOidTlv, GenerateCSR.prime256v1OidTlv]
      (by omega)
  have hBITEq : (GenerateCSR.encodeBitString publicKeyRaw) = Asn1Encoder.custom 0x03 (0 :: publicKeyRaw) :=
    gcsr_encodeBitString_eq publicKeyRaw (by omega)
  have hbit0 : ∀ b ∈ (0 :: publicKeyRaw), b < 256 := by
    intro b hb
    rcases List.mem_cons.mp hb with h | h
    · subst h
      norm_num
    · exact hpkb b h
  have hBITLen : ((GenerateCSR.encodeBitString publicKeyRaw)).length ≤ 2007 := by
    rw [hBITEq]
    have h1 := custom_length_le 0x03 (0 :: publicKeyRaw) (by
      simp only [List.length_cons]
      omega)
    simp only [List.length_cons] at h1
    omega
  have hBITWf : WfTlv (GenerateCSR.encodeBitString publicKeyRaw) := by
    rw [hBITEq]
    exact WfTlv_custom 0x03 (0 :: publicKeyRaw) (by norm_num) hbit0 (by
      simp only [List.length_cons]
      omega)
  have hd4 : (GenerateCSR.spkiSeq publicKeyRaw) = GenerateCSR.encodeSequence [(GenerateCSR.encodeSequence [GenerateCSR.ecPublicKeyOidTlv, GenerateCSR.prime256v1OidTlv]), (GenerateCSR.encodeBitString publicKeyRaw)] := rfl
  have hflSPKI : ([(GenerateCSR.encodeSequence [GenerateCSR.ecPublicKeyOidTlv, GenerateCSR.prime256v1OidTlv]), (GenerateCSR.encodeBitString publicKeyRaw)] : List (List Nat)).flatten.length ≤ 2032 := by
    simp only [List.flatten_cons, List.flatten_nil, List.append_nil, List.length_append]
    omega
  have hSPKILen : ((GenerateCSR.spkiSeq publicKeyRaw)).length ≤ 2038 := by
    rw [hd4, gcsr_encodeSequence_eq [(GenerateCSR.encodeSequence [GenerateCSR.ecPublicKeyOidTlv, GenerateCSR.prime256v1OidTlv]), (GenerateCSR.encodeBitString publicKeyRaw)] (by omega)]
    have h1 := sequence_length_le [(GenerateCSR.encodeSequence [GenerateCSR.ecPublicKeyOidTlv, GenerateCSR.prime256v1OidTlv]), (GenerateCSR.encodeBitString publicKeyRaw)] (by omega)
    omega
  have hSPKIWf : WfTlv (GenerateCSR.spkiSeq publicKeyRaw) := by
    rw [hd4, gcsr_encodeSequence_eq [(GenerateCSR.encodeSequence [GenerateCSR.ecPublicKeyOidTlv, GenerateCSR.prime256v1OidTlv]), (GenerateCSR.encodeBitString publicKeyRaw)] (by omega)]
    exact WfTlv_sequence [(GenerateCSR.encodeSequence [GenerateCSR.ecPublicKeyOidTlv, GenerateCSR.prime256v1OidTlv]), (GenerateCSR.encodeBitString publicKeyRaw)] (by omega)
  -- top level
  have hflTOP : ([GenerateCSR.versionTlv, (GenerateCSR.subjectSeq mainDomain), (GenerateCSR.spkiSeq publicKeyRaw), (GenerateCSR.attributesBlock (mainDomain :: ds))] : List (List Nat)).flatten.length
      ≤ 104734 := by
    simp only [List.flatten_cons, List.flatten_nil, List.append_nil, List.length_append]
    omega
  have g2 : decodeSequence (GenerateCSR.encodeSequence [GenerateCSR.versionTlv, (GenerateCSR.subjectSeq mainDomain), (GenerateCSR.spkiSeq publicKeyRaw), (GenerateCSR.attributesBlock (mainDomain :: ds))])
      = .ok [GenerateCSR.versionTlv, (GenerateCSR.subjectSeq mainDomain), (GenerateCSR.spkiSeq publicKeyRaw), (GenerateCSR.attributesBlock (mainDomain :: ds))] := by
    rw [gcsr_encodeSequence_eq [GenerateCSR.versionTlv, (GenerateCSR.subjectSeq mainDomain), (GenerateCSR.spkiSeq publicKeyRaw), (GenerateCSR.attributesBlock (mainDomain :: ds))] (by omega)]
    refine decodeSequence_parts [GenerateCSR.versionTlv, (GenerateCSR.subjectSeq mainDomain), (GenerateCSR.spkiSeq publicKeyRaw), (GenerateCSR.attributesBlock (mainDomain :: ds))] ?_ (by omega)
    intro p hp
    simp only [List.mem_cons, List.not_mem_nil, or_false] at hp
    rcases hp with rfl | rfl | rfl | rfl
    · rw [versionTlv_custom]
      exact WfTlv_custom 2 [0] (by norm_num) (by decide) (by norm_num)
    · exact hSUBJWf
    · exact hSPKIWf
    · exact hABWf
  have g16 : ∀ d ∈ mainDomain :: ds, decodeTagLengthValue (GenerateCSR.encodeSanDns d)
      = .ok ⟨0x82, ((textEncoderEncode d).length : Int), textEncoderEncode d,
          GenerateCSR.encodeSanDns d⟩ := by
    intro d hd
    rw [hsanEq d hd]
    exact decodeTLV_custom_nil 0x82 (textEncoderEncode d) (by norm_num)
      (by have := hdall d hd; omega) (mem_textEncoderEncode_lt d)
  exact ⟨rfl, g2, rfl, g4, g5, g6, g7, g8, g9, g10, g11, g12, g13, g14, g15, g16⟩

/-- Witness for claim C8: the empty domain list fails, and the wildcard
order domains with a 65-byte raw EC point decode correctly, wildcard
prefix preserved in the SAN list. -/
theorem claim_C8_witness :
    (GenerateCSR.generateCertificationRequestInfoSequence [] (List.replicate 65 4)
      = .error "no domain given to generate csr") ∧
    CsrDecodesCorrectly "*.example.com" ["example.com"] (List.replicate 65 4) :=
  ⟨(claim_C8_generate_csr "*.example.com" ["example.com"] (List.replicate 65 4)).1,
   (claim_C8_generate_csr "*.example.com" ["example.com"] (List.replicate 65 4)).2
     (by decide) (by decide) (by decide) (by decide) (by decide)⟩

end Spec2Proof
